import Mathlib

/-!
# A verification of the pyecs entity-component-system core

This file gives a shallow embedding of the ECS core found in `ecs.py` and
`pyecs.py` (two variants of the same engine; `pyecs.py` is the most complete
variant) and proves the specification's claims about it.

Python dictionaries are modelled as insertion-ordered association lists
(`Dict` below): `d[k] = v` is `Dict.insert` (replace in place, else append),
`d.pop(k)` / `del d[k]` is `Dict.erase`, `d[k]` lookup is `Dict.lookup`.
Python's `frozenset` of component types is a `Finset Nat`.  Component types
and entity ids are natural numbers; a component value is a type tag together
with a payload.  Exceptions are modelled by returning an `Except Err` result
paired with the post-state: in every operation of the source a raise happens
before any mutation (so the post-state on an error is the input state),
except where noted in the definitions below, which follow the source
statement by statement.
-/

namespace Pyecs

/-- Lookup: `Dict.lookup d k` is Python `d[k]` / `d.get(k)`: the value at the first
matching key, if any. -/
def Dict.lookup {α β : Type} [DecidableEq α] : List (α × β) → α → Option β
  | [], _ => none
  | (k, v) :: rest, a => if k = a then some v else Dict.lookup rest a

/-- Assignment: `Dict.insert d k v` is Python `d[k] = v`: replace the value at `k` in
place if present (keeping insertion order), else append the new binding. -/
def Dict.insert {α β : Type} [DecidableEq α] : List (α × β) → α → β → List (α × β)
  | [], a, b => [(a, b)]
  | (k, v) :: rest, a, b =>
      if k = a then (a, b) :: rest else (k, v) :: Dict.insert rest a b

/-- Deletion: `Dict.erase d k` is Python `d.pop(k)` / `del d[k]`: drop every binding of
`k` (an insertion-ordered dict has at most one). -/
def Dict.erase {α β : Type} [DecidableEq α] : List (α × β) → α → List (α × β)
  | [], _ => []
  | (k, v) :: rest, a =>
      if k = a then Dict.erase rest a else (k, v) :: Dict.erase rest a

/-- The key list of a dict, in insertion order (Python `d.keys()`). -/
def Dict.keys {α β : Type} (d : List (α × β)) : List α :=
  d.map Prod.fst

/-- Component types are identified by their Python class; modelled as `Nat`. -/
abbrev CompType := Nat

/-- Entity identifiers (`EntityID = int` in the source). -/
abbrev EntityID := Nat

/-- A component value: `ty` plays the role of `type(c)`, `val` is the payload. -/
structure Comp where
  ty : CompType
  val : Nat
deriving DecidableEq

/-- An entity's component dict, `entity_components[e]`. -/
abbrev Store := List (CompType × Comp)

/-- An entity's change-tick dict, `change_ticks[e]`. -/
abbrev Ticks := List (CompType × Nat)

/-- An archetype key: the `frozenset` of component types. -/
abbrev Key := Finset CompType

/-- The Python exception classes the core can raise: `KeyError` (the NotFound
condition: dict subscript / `pop` on a missing key) and `ValueError` (the
InvalidOperation condition raised explicitly by `pyecs.py`'s
`add_component`). -/
inductive Err where
  | keyError
  | valueError
deriving DecidableEq

/-- The `World` dataclass.  In the source, `entity_archetype[e]` holds the
`Archetype` *object*, which is always the same object as
`archetypes[key]` for its key (both files always assign
`self.entity_archetype[entity] = self.archetypes[new_component_type]`), and
an `Archetype`'s `components` field always equals its dict key; so the
embedding stores the key and keeps the member lists in `archetypes` only.
`resources` and `observers` are untouched by every claim and are omitted.
`spawn_ticks` exists in `ecs.py` only; `pyecs.py` never reads or writes it,
so carrying it in the shared state is harmless. -/
structure World where
  archetypes : List (Key × List EntityID)
  entity_archetype : List (EntityID × Key)
  entity_components : List (EntityID × Store)
  next_id : Nat
  tick : Nat
  spawn_ticks : List (EntityID × Nat)
  change_ticks : List (EntityID × Ticks)

/-- A freshly constructed `World()`. -/
def World.empty : World :=
  { archetypes := [], entity_archetype := [], entity_components := [],
    next_id := 0, tick := 0, spawn_ticks := [], change_ticks := [] }

/-- Model of `World.spawn` (identical in `ecs.py` and `pyecs.py`, except that only
`ecs.py` records the spawn tick).  The dict comprehensions
`{type(c): self.tick for c in components}` and `{type(c): c for c in
components}` are left folds of dict assignment, so a duplicated type keeps
the last value. -/
def World.spawn (w : World) (components : List Comp) : EntityID × World :=
  let e := w.next_id
  let component_type : Key := components.foldl (fun s c => insert c.ty s) ∅
  let ticks : Ticks := components.foldl (fun d c => Dict.insert d c.ty w.tick) []
  let store : Store := components.foldl (fun d c => Dict.insert d c.ty c) []
  let archetypes :=
    match Dict.lookup w.archetypes component_type with
    | none => Dict.insert w.archetypes component_type [e]
    | some l => Dict.insert w.archetypes component_type (l ++ [e])
  (e, { w with
        next_id := e + 1,
        spawn_ticks := Dict.insert w.spawn_ticks e w.tick,
        change_ticks := Dict.insert w.change_ticks e ticks,
        entity_components := Dict.insert w.entity_components e store,
        archetypes := archetypes,
        entity_archetype := Dict.insert w.entity_archetype e component_type })

/-- Model of `World.despawn`: a no-op on an unknown entity, else the entity is removed
from its archetype's member list (`list.remove` drops the first occurrence)
and from all per-entity tables.  The `archetypes` inner `match` cannot take
its `none` arm on states where the entity's archetype object is registered
(always the case in reachable states). -/
def World.despawn (w : World) (e : EntityID) : World :=
  match Dict.lookup w.entity_archetype e with
  | none => w
  | some k =>
      let archetypes :=
        match Dict.lookup w.archetypes k with
        | none => w.archetypes
        | some l => Dict.insert w.archetypes k (l.erase e)
      { w with
        archetypes := archetypes,
        entity_archetype := Dict.erase w.entity_archetype e,
        entity_components := Dict.erase w.entity_components e,
        spawn_ticks := Dict.erase w.spawn_ticks e,
        change_ticks := Dict.erase w.change_ticks e }

/-- Model of `pyecs.py`'s `World.add_component`, statement by statement: the explicit
existence check raising `ValueError`; the change-tick write (whose subscript
`self.change_ticks[entity]` would raise `KeyError` first, mutating nothing);
the `entity_archetype` subscript (which in Python would raise after the
change tick was already written — hence the partially-updated state on that
unreachable arm); the store write; and the archetype migration
`old ∪ {type}` with remove-then-append of the member lists. -/
def World.addComponent (w : World) (e : EntityID) (c : Comp) : Except Err Unit × World :=
  match Dict.lookup w.entity_components e with
  | none => (.error .valueError, w)
  | some store =>
      match Dict.lookup w.change_ticks e with
      | none => (.error .keyError, w)
      | some ticks =>
          let change_ticks := Dict.insert w.change_ticks e (Dict.insert ticks c.ty w.tick)
          match Dict.lookup w.entity_archetype e with
          | none => (.error .keyError, { w with change_ticks := change_ticks })
          | some old_key =>
              let entity_components :=
                Dict.insert w.entity_components e (Dict.insert store c.ty c)
              let new_key : Key := insert c.ty old_key
              let archetypes1 :=
                match Dict.lookup w.archetypes old_key with
                | none => w.archetypes
                | some l => Dict.insert w.archetypes old_key (l.erase e)
              let archetypes2 :=
                match Dict.lookup archetypes1 new_key with
                | none => Dict.insert archetypes1 new_key [e]
                | some l => Dict.insert archetypes1 new_key (l ++ [e])
              (.ok (), { w with
                         change_ticks := change_ticks,
                         entity_components := entity_components,
                         archetypes := archetypes2,
                         entity_archetype := Dict.insert w.entity_archetype e new_key })

/-- Model of `ecs.py`'s `World.add_component`, which differs from `pyecs.py`'s only on a
missing entity: it has no explicit check, so its first statement
`self.entity_components[entity]` raises `KeyError`.  On a live entity the
two bodies are statement-for-statement identical. -/
def World.addComponentEcs (w : World) (e : EntityID) (c : Comp) : Except Err Unit × World :=
  match Dict.lookup w.entity_components e with
  | none => (.error .keyError, w)
  | some _ => w.addComponent e c

/-- Model of `ecs.py`'s `World.set_component`: read the old value (either subscript
raising `KeyError` before any mutation), overwrite the store entry, stamp
the change tick with the current tick, return the old value. -/
def World.setComponent (w : World) (e : EntityID) (t : CompType) (v : Comp) :
    Except Err Comp × World :=
  match Dict.lookup w.entity_components e with
  | none => (.error .keyError, w)
  | some store =>
      match Dict.lookup store t with
      | none => (.error .keyError, w)
      | some old_value =>
          let entity_components := Dict.insert w.entity_components e (Dict.insert store t v)
          match Dict.lookup w.change_ticks e with
          | none => (.error .keyError, { w with entity_components := entity_components })
          | some ticks =>
              (.ok old_value,
               { w with
                 entity_components := entity_components,
                 change_ticks := Dict.insert w.change_ticks e (Dict.insert ticks t w.tick) })

/-- Model of `pyecs.py`'s `World.remove_component`: pop the store entry (`pop` with no
default raises `KeyError` before any mutation), migrate the archetype to
`old − {type}` with remove-then-append of the member lists, then
`self.change_ticks[entity].pop(component_type, None)` — the pop of this one
entity's record only. -/
def World.removeComponent (w : World) (e : EntityID) (t : CompType) :
    Except Err Comp × World :=
  match Dict.lookup w.entity_components e with
  | none => (.error .keyError, w)
  | some store =>
      match Dict.lookup store t with
      | none => (.error .keyError, w)
      | some removed =>
          let entity_components := Dict.insert w.entity_components e (Dict.erase store t)
          match Dict.lookup w.entity_archetype e with
          | none => (.error .keyError, { w with entity_components := entity_components })
          | some old_key =>
              let new_key : Key := old_key.erase t
              let archetypes1 :=
                match Dict.lookup w.archetypes old_key with
                | none => w.archetypes
                | some l => Dict.insert w.archetypes old_key (l.erase e)
              let archetypes2 :=
                match Dict.lookup archetypes1 new_key with
                | none => Dict.insert archetypes1 new_key [e]
                | some l => Dict.insert archetypes1 new_key (l ++ [e])
              match Dict.lookup w.change_ticks e with
              | none =>
                  (.error .keyError,
                   { w with entity_components := entity_components,
                            archetypes := archetypes2,
                            entity_archetype := Dict.insert w.entity_archetype e new_key })
              | some ticks =>
                  (.ok removed,
                   { w with entity_components := entity_components,
                            archetypes := archetypes2,
                            entity_archetype := Dict.insert w.entity_archetype e new_key,
                            change_ticks :=
                              Dict.insert w.change_ticks e (Dict.erase ticks t) })

/-- Model of `ecs.py`'s `World.remove_component`: identical migration, but its last
step is `for entity in self.change_ticks: self.change_ticks[entity].pop(
component_type, None)` — the loop variable shadows the parameter and pops
the component type from **every** entity's change-tick dict. -/
def World.removeComponentEcs (w : World) (e : EntityID) (t : CompType) :
    Except Err Comp × World :=
  match Dict.lookup w.entity_components e with
  | none => (.error .keyError, w)
  | some store =>
      match Dict.lookup store t with
      | none => (.error .keyError, w)
      | some removed =>
          let entity_components := Dict.insert w.entity_components e (Dict.erase store t)
          match Dict.lookup w.entity_archetype e with
          | none => (.error .keyError, { w with entity_components := entity_components })
          | some old_key =>
              let new_key : Key := old_key.erase t
              let archetypes1 :=
                match Dict.lookup w.archetypes old_key with
                | none => w.archetypes
                | some l => Dict.insert w.archetypes old_key (l.erase e)
              let archetypes2 :=
                match Dict.lookup archetypes1 new_key with
                | none => Dict.insert archetypes1 new_key [e]
                | some l => Dict.insert archetypes1 new_key (l ++ [e])
              (.ok removed,
               { w with entity_components := entity_components,
                        archetypes := archetypes2,
                        entity_archetype := Dict.insert w.entity_archetype e new_key,
                        change_ticks :=
                          w.change_ticks.map (fun p => (p.1, Dict.erase p.2 t)) })

/-- Model of `World.get_component`: `self.entity_components[entity][component_type]`,
either subscript raising `KeyError`. -/
def World.getComponent (w : World) (e : EntityID) (t : CompType) : Except Err Comp :=
  match Dict.lookup w.entity_components e with
  | none => .error .keyError
  | some store =>
      match Dict.lookup store t with
      | none => .error .keyError
      | some c => .ok c

/-- The expression `self.change_ticks.get(eid, dict()).get(comp_type, -1)` from `pyecs.py`'s
query: the last-write tick of `(e, t)`, or `-1`. -/
def World.changeTickOf (w : World) (e : EntityID) (t : CompType) : Int :=
  match Dict.lookup w.change_ticks e with
  | none => -1
  | some ticks =>
      match Dict.lookup ticks t with
      | none => -1
      | some n => (n : Int)

/-- Model of `pyecs.py`'s `World.query`: iterate archetypes in insertion order; skip
keys that are not supersets of `withs` or meet `without`; if `changed` is
non-empty keep only members every one of whose `changed` types has
last-write tick `≥ current_tick - 1` (rule (a)); else take all members. -/
def World.query (w : World) (withs : List CompType) (without : List CompType)
    (changed : List CompType) : List EntityID :=
  let with_set : Key := withs.foldl (fun s t => insert t s) ∅
  let without_set : Key := without.foldl (fun s t => insert t s) ∅
  let changed_set : Key := changed.foldl (fun s t => insert t s) ∅
  let current_tick := w.tick
  w.archetypes.foldl
    (fun result p =>
      if ¬ with_set ⊆ p.1 then result
      else if (p.1 ∩ without_set).Nonempty then result
      else if changed_set.Nonempty then
        result ++ p.2.filter (fun eid =>
          decide (∀ t ∈ changed_set, w.changeTickOf eid t ≥ (current_tick : Int) - 1))
      else result ++ p.2)
    []

/-- Model of `ecs.py`'s `World.query` (which also has the `spawned` flag).  Its
`changed` block computes, per member, the set of component types whose tick
equals the current tick and tests `changed.issubset(...)` — but the `continue`
guarded by that test only skips iterations of the *inner* `for` loop, so the
block filters nothing; control always falls through and every member of the
archetype is emitted (the `_dead` binding below records the discarded
computation). -/
def World.queryEcs (w : World) (withs : List CompType) (without : List CompType)
    (changed : List CompType) (spawned : Bool) : List EntityID :=
  let with_set : Key := withs.foldl (fun s t => insert t s) ∅
  let without_set : Key := without.foldl (fun s t => insert t s) ∅
  let changed_set : Key := changed.foldl (fun s t => insert t s) ∅
  let current_tick := w.tick
  w.archetypes.foldl
    (fun result p =>
      if ¬ with_set ⊆ p.1 then result
      else if (p.1 ∩ without_set).Nonempty then result
      else
        let _dead :=
          if changed_set.Nonempty then
            p.2.filter (fun eid =>
              decide (∀ t ∈ changed_set,
                Dict.lookup ((Dict.lookup w.change_ticks eid).getD []) t = some current_tick))
          else []
        if spawned then
          result ++ p.2.filter (fun eid =>
            decide (Dict.lookup w.spawn_ticks eid = some current_tick))
        else result ++ p.2)
    []

/-- The five `World` mutations named by the archetype invariant, acting on
the shared model (`pyecs.py`'s variants where the two files differ;
`set_component` exists in `ecs.py` only). -/
inductive Mutation where
  | spawnM (cs : List Comp)
  | despawnM (e : EntityID)
  | addM (e : EntityID) (c : Comp)
  | setM (e : EntityID) (t : CompType) (v : Comp)
  | removeM (e : EntityID) (t : CompType)

/-- The post-state of a mutation (on an exception, the state the raise left
behind). -/
def Mutation.apply (m : Mutation) (w : World) : World :=
  match m with
  | .spawnM cs => (w.spawn cs).2
  | .despawnM e => w.despawn e
  | .addM e c => (w.addComponent e c).2
  | .setM e t v => (w.setComponent e t v).2
  | .removeM e t => (w.removeComponent e t).2

/-- The set of component types currently stored for an entity: the key set of
its component dict. -/
def storeKeys (s : Store) : Key := (Dict.keys s).toFinset

/-- The claim's archetype consistency property, as an executable check over
the whole world: every entity in `entity_archetype` has a component store
whose key set equals its archetype key, appears exactly once in that
archetype's member list, and appears in no other archetype's member list. -/
def World.archConsistent (w : World) : Bool :=
  w.entity_archetype.all (fun p =>
    (match Dict.lookup w.entity_components p.1 with
     | none => false
     | some s => decide (storeKeys s = p.2)) &&
    (match Dict.lookup w.archetypes p.2 with
     | none => false
     | some l => decide (l.count p.1 = 1)) &&
    w.archetypes.all (fun q => decide (q.1 = p.2) || decide (p.1 ∉ q.2)))

/-- An event value; `ty` plays the role of `type(ev)`.  Distinct Python event
objects are modelled as distinct values. -/
structure Ev where
  ty : Nat
  val : Nat
deriving DecidableEq

/-- The double-buffered event queues (`ecs.py` uses `defaultdict(list)`,
`pyecs.py` creates per-type queues on first write; both behave as an empty
queue for an absent type). -/
structure EventBuffer where
  current : List (Nat × List Ev)
  next : List (Nat × List Ev)
deriving DecidableEq

/-- A fresh `EventBuffer()`. -/
def EventBuffer.empty : EventBuffer := { current := [], next := [] }

/-- Model of `EventBuffer.read`: the current generation's queue for the type, or empty. -/
def EventBuffer.read (b : EventBuffer) (t : Nat) : List Ev :=
  (Dict.lookup b.current t).getD []

/-- Model of `EventBuffer.write` for one event: append it to the next generation's
queue for its type, creating the queue on first write. -/
def EventBuffer.write (b : EventBuffer) (ev : Ev) : EventBuffer :=
  { b with next := Dict.insert b.next ev.ty ((Dict.lookup b.next ev.ty).getD [] ++ [ev]) }

/-- Model of `EventBuffer.write(*events)`: write each event in order. -/
def EventBuffer.writeMany (b : EventBuffer) (evs : List Ev) : EventBuffer :=
  evs.foldl EventBuffer.write b

/-- Model of `EventBuffer.update`, that is `current = next.copy(); next.clear()`.  The copy is
shallow, but `next.clear()` empties the dict without touching the lists now
held by `current`, and later writes re-create fresh queues, so the functional
move below is the exact observable behaviour. -/
def EventBuffer.update (b : EventBuffer) : EventBuffer :=
  { current := b.next, next := [] }

/-- A system as `ecs.py` types it: `Callable[[World, EventBuffer], None]`,
modelled as a state transformer. -/
abbrev SystemT := World → EventBuffer → World × EventBuffer

/-- Model of `ecs.py`'s `Schedule`: the ordered system list and its event buffer. -/
structure Schedule where
  systems : List SystemT
  events : EventBuffer

/-- Model of `Schedule.run` (`ecs.py`): `world.tick += 1`, then each system in
registration order on the shared world and buffer, then `self.events.update()`. -/
def Schedule.run (s : Schedule) (w : World) : World × Schedule :=
  let w1 := { w with tick := w.tick + 1 }
  let folded := s.systems.foldl (fun p sys => sys p.1 p.2) (w1, s.events)
  (folded.1, { s with events := folded.2.update })

/-- An instrumented system used to observe `Schedule.run`: it leaves the
world unchanged and writes one event of type `0` recording its registration
index and the tick it observed. -/
def logSys (i : Nat) : SystemT :=
  fun w ev => (w, ev.write ⟨0, Nat.pair i w.tick⟩)

/-- A system as `pyecs.py` types it: `Callable[[World], None]`, modelled as
a state transformer on the world alone. -/
abbrev SystemP := World → World

/-- Model of `pyecs.py`'s `Schedule`: only the ordered system list — unlike
`ecs.py`'s, it holds no event buffer (there the buffer is an `EventBuffer`
resource the host manages, see `test_qt.py`, `test_pygame.py`). -/
structure ScheduleP where
  systems : List SystemP

/-- Model of `pyecs.py`'s `Schedule.run`: `world.tick += 1`, then each
system in registration order; its body references no event buffer and calls
no `update`. -/
def ScheduleP.run (s : ScheduleP) (w : World) : World :=
  s.systems.foldl (fun w sys => sys w) { w with tick := w.tick + 1 }

/-- An instrumented `pyecs.py` system: spawns one entity whose single
component records the system's registration index (as the component type)
and the tick the system observed (as the value). -/
def logSysP (i : Nat) : SystemP :=
  fun w => (w.spawn [⟨i, w.tick⟩]).2

/-- Fold a list of mutations over a world, collecting the entity ids
returned by the `spawn` calls in order. -/
def World.runOps (w : World) : List Mutation → World × List EntityID
  | [] => (w, [])
  | .spawnM cs :: rest =>
      ((((w.spawn cs).2).runOps rest).1,
       (w.spawn cs).1 :: (((w.spawn cs).2).runOps rest).2)
  | m :: rest => (m.apply w).runOps rest

/-- The archetype-migration step shared by `add_component` and
`remove_component` (proof infrastructure: both operations are shown equal to
this on their success paths): move `e0` from the member list of its old key
`k0` to the list of the new key, replace its store, and install the new
change-tick table. -/
def migrate (w : World) (e0 : EntityID) (k0 K' : Key) (s' : Store)
    (ct' : List (EntityID × Ticks)) : World :=
  let archetypes1 :=
    match Dict.lookup w.archetypes k0 with
    | none => w.archetypes
    | some l => Dict.insert w.archetypes k0 (l.erase e0)
  let archetypes2 :=
    match Dict.lookup archetypes1 K' with
    | none => Dict.insert archetypes1 K' [e0]
    | some l => Dict.insert archetypes1 K' (l ++ [e0])
  { w with
    entity_components := Dict.insert w.entity_components e0 s',
    archetypes := archetypes2,
    entity_archetype := Dict.insert w.entity_archetype e0 K',
    change_ticks := ct' }

/-- The inductive invariant of a `World`, established at construction and
preserved by every mutation: dict keys are duplicate-free; every live entity
(a key of `entity_archetype`) has a component store whose key set equals its
archetype key, appears exactly once in that archetype's member list, and has
a change-tick record; every member of an archetype's list is live with that
archetype as its own; entity ids of live entities are below `next_id`. -/
structure Inv (w : World) : Prop where
  nd_ea : (Dict.keys w.entity_archetype).Nodup
  nd_ar : (Dict.keys w.archetypes).Nodup
  key_eq : ∀ e k, Dict.lookup w.entity_archetype e = some k →
    ∃ s, Dict.lookup w.entity_components e = some s ∧ storeKeys s = k
  mem : ∀ e k, Dict.lookup w.entity_archetype e = some k →
    ∃ l, Dict.lookup w.archetypes k = some l ∧ l.count e = 1
  owner : ∀ k l, Dict.lookup w.archetypes k = some l →
    ∀ e ∈ l, Dict.lookup w.entity_archetype e = some k
  comp_live : ∀ e, (Dict.lookup w.entity_components e).isSome →
    (Dict.lookup w.entity_archetype e).isSome
  ct_live : ∀ e, (Dict.lookup w.entity_archetype e).isSome →
    (Dict.lookup w.change_ticks e).isSome
  fresh : ∀ e, (Dict.lookup w.entity_archetype e).isSome → e < w.next_id


@[simp]
theorem Dict.lookup_nil {α β : Type} [DecidableEq α] (a : α) :
    Dict.lookup ([] : List (α × β)) a = none := rfl

@[simp]
theorem Dict.lookup_cons {α β : Type} [DecidableEq α] (k : α) (v : β) (d : List (α × β)) (a : α) :
    Dict.lookup ((k, v) :: d) a = if k = a then some v else Dict.lookup d a := rfl

@[simp]
theorem Dict.lookup_insert_self {α β : Type} [DecidableEq α] (d : List (α × β)) (a : α) (b : β) :
    Dict.lookup (Dict.insert d a b) a = some b := by
  induction d with
  | nil => simp [Dict.insert]
  | cons p rest ih =>
      obtain ⟨k, v⟩ := p
      by_cases h : k = a
      · simp [Dict.insert, h]
      · simp [Dict.insert, h, ih]

theorem Dict.lookup_insert_ne {α β : Type} [DecidableEq α] (d : List (α × β)) (a a' : α) (b : β)
    (h : a' ≠ a) : Dict.lookup (Dict.insert d a b) a' = Dict.lookup d a' := by
  induction d with
  | nil => simp [Dict.insert, Ne.symm h]
  | cons p rest ih =>
      obtain ⟨k, v⟩ := p
      by_cases hk : k = a
      · subst hk
        simp [Dict.insert, Ne.symm h]
      · simp [Dict.insert, hk]
        by_cases hk' : k = a'
        · simp [hk']
        · simp [hk', ih]

@[simp]
theorem Dict.lookup_erase_self {α β : Type} [DecidableEq α] (d : List (α × β)) (a : α) :
    Dict.lookup (Dict.erase d a) a = none := by
  induction d with
  | nil => simp [Dict.erase]
  | cons p rest ih =>
      obtain ⟨k, v⟩ := p
      by_cases h : k = a
      · simpa [Dict.erase, h] using ih
      · simp [Dict.erase, h, ih]

theorem Dict.lookup_erase_ne {α β : Type} [DecidableEq α] (d : List (α × β)) (a a' : α)
    (h : a' ≠ a) : Dict.lookup (Dict.erase d a) a' = Dict.lookup d a' := by
  induction d with
  | nil => simp [Dict.erase]
  | cons p rest ih =>
      obtain ⟨k, v⟩ := p
      by_cases hk : k = a
      · subst hk
        simp [Dict.erase, Ne.symm h, ih]
      · by_cases hk' : k = a'
        · simp [Dict.erase, hk, hk', h, ih]
        · simp [Dict.erase, hk, hk', ih]

theorem Dict.keys_insert {α β : Type} [DecidableEq α] (d : List (α × β)) (a : α) (b : β) :
    Dict.keys (Dict.insert d a b) = if a ∈ Dict.keys d then Dict.keys d else Dict.keys d ++ [a] := by
  induction d with
  | nil => simp [Dict.insert, Dict.keys]
  | cons p rest ih =>
      obtain ⟨k, v⟩ := p
      by_cases h : k = a
      · simp [Dict.insert, h, Dict.keys]
      · simp only [Dict.insert, if_neg h, Dict.keys, List.map_cons, List.mem_cons]
        simp only [Dict.keys] at ih
        rw [ih]
        by_cases hmem : a ∈ List.map Prod.fst rest
        · simp [hmem, Ne.symm h]
        · simp [hmem, Ne.symm h]

theorem Dict.keys_nodup_insert {α β : Type} [DecidableEq α] (d : List (α × β)) (a : α) (b : β)
    (h : (Dict.keys d).Nodup) : (Dict.keys (Dict.insert d a b)).Nodup := by
  rw [Dict.keys_insert]
  by_cases hmem : a ∈ Dict.keys d
  · simpa [hmem] using h
  · simpa [hmem, List.nodup_append] using h

theorem Dict.keys_erase_subset {α β : Type} [DecidableEq α] (d : List (α × β)) (a : α) :
    Dict.keys (Dict.erase d a) ⊆ Dict.keys d := by
  induction d with
  | nil => simp [Dict.erase]
  | cons p rest ih =>
      obtain ⟨k, v⟩ := p
      by_cases hk : k = a
      · simp only [Dict.erase, if_pos hk]
        exact fun x hx => List.mem_cons_of_mem _ (ih hx)
      · simp only [Dict.erase, if_neg hk, Dict.keys, List.map_cons]
        intro x hx
        rcases List.mem_cons.mp hx with h1 | h1
        · exact h1 ▸ List.mem_cons_self _ _
        · exact List.mem_cons_of_mem _ (ih h1)

theorem Dict.keys_nodup_erase {α β : Type} [DecidableEq α] (d : List (α × β)) (a : α)
    (h : (Dict.keys d).Nodup) : (Dict.keys (Dict.erase d a)).Nodup := by
  induction d with
  | nil => simp [Dict.erase, Dict.keys]
  | cons p rest ih =>
      obtain ⟨k, v⟩ := p
      simp only [Dict.keys, List.map_cons, List.nodup_cons] at h
      by_cases hk : k = a
      · simp only [Dict.erase, if_pos hk]
        exact ih h.2
      · simp only [Dict.erase, if_neg hk, Dict.keys, List.map_cons, List.nodup_cons]
        exact ⟨fun hmem => h.1 (Dict.keys_erase_subset rest a hmem), ih h.2⟩

theorem Dict.lookup_eq_none_iff {α β : Type} [DecidableEq α] (d : List (α × β)) (a : α) :
    Dict.lookup d a = none ↔ a ∉ Dict.keys d := by
  induction d with
  | nil => simp [Dict.keys]
  | cons p rest ih =>
      obtain ⟨k, v⟩ := p
      by_cases h : k = a
      · subst h
        simp [Dict.keys]
      · simp [Dict.keys, h, Ne.symm h, ih]

theorem Dict.lookup_isSome_iff {α β : Type} [DecidableEq α] (d : List (α × β)) (a : α) :
    (Dict.lookup d a).isSome ↔ a ∈ Dict.keys d := by
  cases h : Dict.lookup d a with
  | none =>
      simp only [Option.isSome_none, Bool.false_eq_true, false_iff]
      exact (Dict.lookup_eq_none_iff d a).mp h
  | some b =>
      simp only [Option.isSome_some, true_iff]
      by_contra hmem
      rw [(Dict.lookup_eq_none_iff d a).mpr hmem] at h
      exact Option.noConfusion h

theorem Dict.lookup_mem {α β : Type} [DecidableEq α] {d : List (α × β)} {a : α} {b : β}
    (h : Dict.lookup d a = some b) : (a, b) ∈ d := by
  induction d with
  | nil => simp [Dict.lookup] at h
  | cons p rest ih =>
      obtain ⟨k, v⟩ := p
      by_cases hk : k = a
      · subst hk
        rw [Dict.lookup_cons, if_pos rfl] at h
        obtain rfl : v = b := Option.some.inj h
        exact List.mem_cons_self _ _
      · rw [Dict.lookup_cons, if_neg hk] at h
        exact List.mem_cons_of_mem _ (ih h)

theorem Dict.lookup_getD_insert_self {α β : Type} [DecidableEq α] (d : List (α × β)) (a : α)
    (b fallback : β) : (Dict.lookup (Dict.insert d a b) a).getD fallback = b := by
  rw [Dict.lookup_insert_self]
  rfl

theorem Dict.insert_eq_append {α β : Type} [DecidableEq α] (d : List (α × β)) (a : α) (b : β)
    (h : Dict.lookup d a = none) : Dict.insert d a b = d ++ [(a, b)] := by
  induction d with
  | nil => rfl
  | cons p rest ih =>
      obtain ⟨k, v⟩ := p
      rw [Dict.lookup_cons] at h
      by_cases hk : k = a
      · rw [if_pos hk] at h
        exact absurd h (by simp)
      · rw [if_neg hk] at h
        simp [Dict.insert, hk, ih h]

theorem Dict.mem_lookup {α β : Type} [DecidableEq α] {d : List (α × β)} {a : α} {b : β}
    (hnd : (Dict.keys d).Nodup) (h : (a, b) ∈ d) : Dict.lookup d a = some b := by
  induction d with
  | nil => simp at h
  | cons p rest ih =>
      obtain ⟨k, v⟩ := p
      simp only [Dict.keys, List.map_cons, List.nodup_cons] at hnd
      rcases List.mem_cons.mp h with h1 | h1
      · cases h1
        simp [Dict.lookup]
      · have hka : k ≠ a := by
          intro hka
          subst hka
          exact hnd.1 (List.mem_map.mpr ⟨(k, b), h1, rfl⟩)
        simp only [Dict.lookup_cons, if_neg hka]
        exact ih hnd.2 h1

section AuxLemmas

theorem Dict.erase_insert_of_lookup_none {α β : Type} [DecidableEq α]
    (d : List (α × β)) (a : α) (b : β) (h : Dict.lookup d a = none) :
    Dict.erase (Dict.insert d a b) a = d := by
  induction d with
  | nil => simp [Dict.insert, Dict.erase]
  | cons p rest ih =>
      obtain ⟨k, v⟩ := p
      rw [Dict.lookup_cons] at h
      by_cases hk : k = a
      · rw [if_pos hk] at h
        exact absurd h (by simp)
      · rw [if_neg hk] at h
        simp [Dict.insert, hk, Dict.erase, ih h]

theorem storeKeys_insert (s : Store) (t : CompType) (c : Comp) :
    storeKeys (Dict.insert s t c) = insert t (storeKeys s) := by
  rw [storeKeys, Dict.keys_insert]
  by_cases h : t ∈ Dict.keys s
  · rw [if_pos h, storeKeys]
    exact (Finset.insert_eq_self.mpr (List.mem_toFinset.mpr h)).symm
  · rw [if_neg h, List.toFinset_append]
    simp [storeKeys, Finset.insert_eq, Finset.union_comm]

theorem storeKeys_erase (s : Store) (t : CompType) :
    storeKeys (Dict.erase s t) = (storeKeys s).erase t := by
  induction s with
  | nil => simp [Dict.erase, storeKeys, Dict.keys]
  | cons p rest ih =>
      obtain ⟨k, v⟩ := p
      have hcons : storeKeys ((k, v) :: rest) = insert k (storeKeys rest) := by
        simp [storeKeys, Dict.keys]
      by_cases h : k = t
      · subst h
        rw [hcons, Finset.erase_insert_eq_erase]
        simpa [Dict.erase] using ih
      · rw [hcons, Finset.erase_insert_of_ne h]
        simp only [Dict.erase, if_neg h]
        have : storeKeys ((k, v) :: Dict.erase rest t) = insert k (storeKeys (Dict.erase rest t)) := by
          simp [storeKeys, Dict.keys]
        rw [this, ih]

theorem storeKeys_foldl (cs : List Comp) (d : Store) :
    storeKeys (cs.foldl (fun d c => Dict.insert d c.ty c) d)
      = cs.foldl (fun s c => insert c.ty s) (storeKeys d) := by
  induction cs generalizing d with
  | nil => rfl
  | cons c rest ih => simp [List.foldl_cons, ih, storeKeys_insert]

theorem storeKeys_nil : storeKeys [] = (∅ : Key) := rfl

theorem mem_foldl_key (cs : List Comp) (s : Key) (t : CompType) :
    t ∈ cs.foldl (fun s c => insert c.ty s) s ↔ t ∈ s ∨ t ∈ cs.map Comp.ty := by
  induction cs generalizing s with
  | nil => simp
  | cons c rest ih =>
      simp only [List.foldl_cons, ih, Finset.mem_insert, List.map_cons, List.mem_cons]
      tauto

theorem Dict.keys_nodup_foldl {β : Type} (f : Comp → β) (cs : List Comp)
    (d : List (CompType × β)) (h : (Dict.keys d).Nodup) :
    (Dict.keys (cs.foldl (fun d c => Dict.insert d c.ty (f c)) d)).Nodup := by
  induction cs generalizing d with
  | nil => exact h
  | cons c rest ih => exact ih _ (Dict.keys_nodup_insert _ _ _ h)

theorem Dict.lookup_foldl_insert {β : Type} (f : Comp → β) (cs : List Comp)
    (d : List (CompType × β)) (t : CompType) :
    Dict.lookup (cs.foldl (fun d c => Dict.insert d c.ty (f c)) d) t
      = (((cs.filter (fun c => decide (c.ty = t))).getLast?).map f).or (Dict.lookup d t) := by
  induction cs using List.reverseRecOn with
  | nil => cases h : Dict.lookup d t <;> simp [Option.or, h]
  | append_singleton ds c ih =>
      rw [List.foldl_append, List.foldl_cons, List.foldl_nil, List.filter_append]
      by_cases h : c.ty = t
      · subst h
        simp [Dict.lookup_insert_self, List.getLast?_concat, Option.or]
      · rw [Dict.lookup_insert_ne _ _ _ _ (fun ht => h ht.symm), ih]
        simp [List.filter_cons, h]

end AuxLemmas

theorem inv_empty : Inv World.empty := by
  refine ⟨?_, ?_, ?_, ?_, ?_, ?_, ?_, ?_⟩ <;>
    simp [World.empty, Dict.keys, Dict.lookup]

/-- Under the invariant, a live entity is in no archetype member list other
than its own. -/
theorem Inv.not_mem_other {w : World} (h : Inv w) {e : EntityID} {k k' : Key}
    {l' : List EntityID} (he : Dict.lookup w.entity_archetype e = some k)
    (hk' : k' ≠ k) (hl' : Dict.lookup w.archetypes k' = some l') : e ∉ l' := by
  intro hmem
  have hthis := h.owner k' l' hl' e hmem
  rw [he] at hthis
  exact hk' (Option.some.inj hthis).symm

/-- A fresh id (`≥ next_id`) is live nowhere and in no member list. -/
theorem Inv.fresh_not_mem {w : World} (h : Inv w) {e : EntityID}
    (he : w.next_id ≤ e) {k : Key} {l : List EntityID}
    (hl : Dict.lookup w.archetypes k = some l) : e ∉ l := by
  intro hmem
  have hlive := h.owner k l hl e hmem
  have hfresh := h.fresh e (by rw [hlive]; rfl)
  exact absurd (Nat.lt_of_lt_of_le hfresh he) (Nat.lt_irrefl e)

theorem Inv.lookup_ea_fresh {w : World} (h : Inv w) {e : EntityID}
    (he : w.next_id ≤ e) : Dict.lookup w.entity_archetype e = none := by
  cases hx : Dict.lookup w.entity_archetype e with
  | none => rfl
  | some k =>
      have hfresh := h.fresh e (by rw [hx]; rfl)
      exact absurd (Nat.lt_of_lt_of_le hfresh he) (Nat.lt_irrefl e)

/-- The invariant implies the executable archetype-consistency check. -/
theorem Inv.toArchConsistent {w : World} (h : Inv w) : w.archConsistent = true := by
  rw [World.archConsistent, List.all_eq_true]
  intro p hp
  have hlook : Dict.lookup w.entity_archetype p.1 = some p.2 := by
    obtain ⟨e, k⟩ := p
    exact Dict.mem_lookup h.nd_ea hp
  obtain ⟨s, hs, hsk⟩ := h.key_eq p.1 p.2 hlook
  obtain ⟨l, hl, hcount⟩ := h.mem p.1 p.2 hlook
  rw [Bool.and_eq_true, Bool.and_eq_true]
  refine ⟨⟨?_, ?_⟩, ?_⟩
  · rw [hs]
    simp [hsk]
  · rw [hl]
    simp [hcount]
  · rw [List.all_eq_true]
    intro q hq
    have hlq : Dict.lookup w.archetypes q.1 = some q.2 := by
      obtain ⟨k', l'⟩ := q
      exact Dict.mem_lookup h.nd_ar hq
    by_cases hk : q.1 = p.2
    · simp [hk]
    · have : p.1 ∉ q.2 := h.not_mem_other hlook hk hlq
      simp [this]

section InvPreservation

/-- The operation `spawn` preserves the invariant. -/
theorem inv_spawn {w : World} (h : Inv w) (cs : List Comp) : Inv (w.spawn cs).2 := by
  have hea : (w.spawn cs).2.entity_archetype
      = Dict.insert w.entity_archetype w.next_id (cs.foldl (fun s c => insert c.ty s) ∅) := rfl
  have hec : (w.spawn cs).2.entity_components
      = Dict.insert w.entity_components w.next_id
          (cs.foldl (fun d c => Dict.insert d c.ty c) []) := rfl
  have hct : (w.spawn cs).2.change_ticks
      = Dict.insert w.change_ticks w.next_id
          (cs.foldl (fun d c => Dict.insert d c.ty w.tick) []) := rfl
  have hni : (w.spawn cs).2.next_id = w.next_id + 1 := rfl
  have hfreshE : Dict.lookup w.entity_archetype w.next_id = none :=
    h.lookup_ea_fresh (Nat.le_refl _)
  have hkeys : storeKeys (cs.foldl (fun d c => Dict.insert d c.ty c) [])
      = cs.foldl (fun s c => insert c.ty s) ∅ := by
    rw [storeKeys_foldl, storeKeys_nil]
  cases harK : Dict.lookup w.archetypes (cs.foldl (fun s c => insert c.ty s) ∅) with
  | none =>
      have har : (w.spawn cs).2.archetypes
          = Dict.insert w.archetypes (cs.foldl (fun s c => insert c.ty s) ∅) [w.next_id] := by
        simp only [World.spawn, harK]
      refine ⟨?_, ?_, ?_, ?_, ?_, ?_, ?_, ?_⟩
      · rw [hea]
        exact Dict.keys_nodup_insert _ _ _ h.nd_ea
      · rw [har]
        exact Dict.keys_nodup_insert _ _ _ h.nd_ar
      · intro e k hk
        rw [hea] at hk
        rw [hec]
        by_cases heq : e = w.next_id
        · subst heq
          rw [Dict.lookup_insert_self] at hk
          refine ⟨_, Dict.lookup_insert_self _ _ _, ?_⟩
          rw [hkeys]
          exact Option.some.inj hk
        · rw [Dict.lookup_insert_ne _ _ _ _ heq] at hk
          obtain ⟨s, hs, hsk⟩ := h.key_eq e k hk
          exact ⟨s, by rw [Dict.lookup_insert_ne _ _ _ _ heq]; exact hs, hsk⟩
      · intro e k hk
        rw [hea] at hk
        rw [har]
        by_cases heq : e = w.next_id
        · subst heq
          rw [Dict.lookup_insert_self] at hk
          obtain rfl : cs.foldl (fun s c => insert c.ty s) ∅ = k := Option.some.inj hk
          exact ⟨[w.next_id], Dict.lookup_insert_self _ _ _, by simp⟩
        · rw [Dict.lookup_insert_ne _ _ _ _ heq] at hk
          obtain ⟨l0, hl0, hc0⟩ := h.mem e k hk
          have hkK : k ≠ cs.foldl (fun s c => insert c.ty s) ∅ := by
            intro hkk
            rw [hkk, harK] at hl0
            exact Option.noConfusion hl0
          exact ⟨l0, by rw [Dict.lookup_insert_ne _ _ _ _ hkK]; exact hl0, hc0⟩
      · intro k l hl e hmem
        rw [har] at hl
        rw [hea]
        by_cases hkK : k = cs.foldl (fun s c => insert c.ty s) ∅
        · subst hkK
          rw [Dict.lookup_insert_self] at hl
          obtain rfl : [w.next_id] = l := Option.some.inj hl
          obtain rfl : e = w.next_id := by simpa using hmem
          rw [Dict.lookup_insert_self]
        · rw [Dict.lookup_insert_ne _ _ _ _ hkK] at hl
          have hee := h.owner k l hl e hmem
          have hne : e ≠ w.next_id := by
            intro heq
            rw [heq, hfreshE] at hee
            exact Option.noConfusion hee
          rw [Dict.lookup_insert_ne _ _ _ _ hne]
          exact hee
      · intro e hsome
        rw [hec] at hsome
        rw [hea]
        by_cases heq : e = w.next_id
        · subst heq
          rw [Dict.lookup_insert_self]
          rfl
        · rw [Dict.lookup_insert_ne _ _ _ _ heq] at hsome
          rw [Dict.lookup_insert_ne _ _ _ _ heq]
          exact h.comp_live e hsome
      · intro e hsome
        rw [hea] at hsome
        rw [hct]
        by_cases heq : e = w.next_id
        · subst heq
          rw [Dict.lookup_insert_self]
          rfl
        · rw [Dict.lookup_insert_ne _ _ _ _ heq] at hsome
          rw [Dict.lookup_insert_ne _ _ _ _ heq]
          exact h.ct_live e hsome
      · intro e hsome
        rw [hea] at hsome
        rw [hni]
        by_cases heq : e = w.next_id
        · subst heq
          exact Nat.lt_succ_self _
        · rw [Dict.lookup_insert_ne _ _ _ _ heq] at hsome
          exact Nat.lt_succ_of_lt (h.fresh e hsome)
  | some lK =>
      have har : (w.spawn cs).2.archetypes
          = Dict.insert w.archetypes (cs.foldl (fun s c => insert c.ty s) ∅)
              (lK ++ [w.next_id]) := by
        simp only [World.spawn, harK]
      have hEnot : w.next_id ∉ lK := h.fresh_not_mem (Nat.le_refl _) harK
      refine ⟨?_, ?_, ?_, ?_, ?_, ?_, ?_, ?_⟩
      · rw [hea]
        exact Dict.keys_nodup_insert _ _ _ h.nd_ea
      · rw [har]
        exact Dict.keys_nodup_insert _ _ _ h.nd_ar
      · intro e k hk
        rw [hea] at hk
        rw [hec]
        by_cases heq : e = w.next_id
        · subst heq
          rw [Dict.lookup_insert_self] at hk
          refine ⟨_, Dict.lookup_insert_self _ _ _, ?_⟩
          rw [hkeys]
          exact Option.some.inj hk
        · rw [Dict.lookup_insert_ne _ _ _ _ heq] at hk
          obtain ⟨s, hs, hsk⟩ := h.key_eq e k hk
          exact ⟨s, by rw [Dict.lookup_insert_ne _ _ _ _ heq]; exact hs, hsk⟩
      · intro e k hk
        rw [hea] at hk
        rw [har]
        by_cases heq : e = w.next_id
        · subst heq
          rw [Dict.lookup_insert_self] at hk
          obtain rfl : cs.foldl (fun s c => insert c.ty s) ∅ = k := Option.some.inj hk
          refine ⟨lK ++ [w.next_id], Dict.lookup_insert_self _ _ _, ?_⟩
          rw [List.count_append, List.count_eq_zero.mpr hEnot]
          simp
        · rw [Dict.lookup_insert_ne _ _ _ _ heq] at hk
          obtain ⟨l0, hl0, hc0⟩ := h.mem e k hk
          by_cases hkK : k = cs.foldl (fun s c => insert c.ty s) ∅
          · subst hkK
            obtain rfl : lK = l0 := Option.some.inj (harK ▸ hl0)
            refine ⟨lK ++ [w.next_id], Dict.lookup_insert_self _ _ _, ?_⟩
            rw [List.count_append, hc0]
            simp [heq]
          · exact ⟨l0, by rw [Dict.lookup_insert_ne _ _ _ _ hkK]; exact hl0, hc0⟩
      · intro k l hl e hmem
        rw [har] at hl
        rw [hea]
        by_cases hkK : k = cs.foldl (fun s c => insert c.ty s) ∅
        · subst hkK
          rw [Dict.lookup_insert_self] at hl
          obtain rfl : lK ++ [w.next_id] = l := Option.some.inj hl
          rcases List.mem_append.mp hmem with hm | hm
          · have hee := h.owner _ lK harK e hm
            have hne : e ≠ w.next_id := by
              intro heq
              rw [heq, hfreshE] at hee
              exact Option.noConfusion hee
            rw [Dict.lookup_insert_ne _ _ _ _ hne]
            exact hee
          · obtain rfl : e = w.next_id := by simpa using hm
            rw [Dict.lookup_insert_self]
        · rw [Dict.lookup_insert_ne _ _ _ _ hkK] at hl
          have hee := h.owner k l hl e hmem
          have hne : e ≠ w.next_id := by
            intro heq
            rw [heq, hfreshE] at hee
            exact Option.noConfusion hee
          rw [Dict.lookup_insert_ne _ _ _ _ hne]
          exact hee
      · intro e hsome
        rw [hec] at hsome
        rw [hea]
        by_cases heq : e = w.next_id
        · subst heq
          rw [Dict.lookup_insert_self]
          rfl
        · rw [Dict.lookup_insert_ne _ _ _ _ heq] at hsome
          rw [Dict.lookup_insert_ne _ _ _ _ heq]
          exact h.comp_live e hsome
      · intro e hsome
        rw [hea] at hsome
        rw [hct]
        by_cases heq : e = w.next_id
        · subst heq
          rw [Dict.lookup_insert_self]
          rfl
        · rw [Dict.lookup_insert_ne _ _ _ _ heq] at hsome
          rw [Dict.lookup_insert_ne _ _ _ _ heq]
          exact h.ct_live e hsome
      · intro e hsome
        rw [hea] at hsome
        rw [hni]
        by_cases heq : e = w.next_id
        · subst heq
          exact Nat.lt_succ_self _
        · rw [Dict.lookup_insert_ne _ _ _ _ heq] at hsome
          exact Nat.lt_succ_of_lt (h.fresh e hsome)

/-- The operation `despawn` preserves the invariant. -/
theorem inv_despawn {w : World} (h : Inv w) (e0 : EntityID) : Inv (w.despawn e0) := by
  cases hk0 : Dict.lookup w.entity_archetype e0 with
  | none =>
      have hw : w.despawn e0 = w := by simp only [World.despawn, hk0]
      rw [hw]
      exact h
  | some k0 =>
      obtain ⟨l0, hl0, hc0⟩ := h.mem e0 k0 hk0
      have hw : w.despawn e0 = { w with
          archetypes := Dict.insert w.archetypes k0 (l0.erase e0),
          entity_archetype := Dict.erase w.entity_archetype e0,
          entity_components := Dict.erase w.entity_components e0,
          spawn_ticks := Dict.erase w.spawn_ticks e0,
          change_ticks := Dict.erase w.change_ticks e0 } := by
        simp only [World.despawn, hk0, hl0]
      rw [hw]
      have hE0notErase : e0 ∉ l0.erase e0 := by
        have hce := List.count_erase_self e0 l0
        rw [hc0] at hce
        exact List.count_eq_zero.mp hce
      refine ⟨?_, ?_, ?_, ?_, ?_, ?_, ?_, ?_⟩
      · exact Dict.keys_nodup_erase _ _ h.nd_ea
      · exact Dict.keys_nodup_insert _ _ _ h.nd_ar
      · intro e k hk
        have hne : e ≠ e0 := by
          intro heq
          rw [heq, Dict.lookup_erase_self] at hk
          exact Option.noConfusion hk
        rw [Dict.lookup_erase_ne _ _ _ hne] at hk
        obtain ⟨s, hs, hsk⟩ := h.key_eq e k hk
        exact ⟨s, by rw [Dict.lookup_erase_ne _ _ _ hne]; exact hs, hsk⟩
      · intro e k hk
        have hne : e ≠ e0 := by
          intro heq
          rw [heq, Dict.lookup_erase_self] at hk
          exact Option.noConfusion hk
        rw [Dict.lookup_erase_ne _ _ _ hne] at hk
        obtain ⟨l, hl, hc⟩ := h.mem e k hk
        by_cases hkk : k = k0
        · subst hkk
          obtain rfl : l0 = l := Option.some.inj (hl0 ▸ hl)
          refine ⟨l0.erase e0, Dict.lookup_insert_self _ _ _, ?_⟩
          rw [List.count_erase_of_ne hne, hc]
        · exact ⟨l, by rw [Dict.lookup_insert_ne _ _ _ _ hkk]; exact hl, hc⟩
      · intro k l hl e hmem
        by_cases hkk : k = k0
        · subst hkk
          rw [Dict.lookup_insert_self] at hl
          obtain rfl : l0.erase e0 = l := Option.some.inj hl
          have hne : e ≠ e0 := fun heq => hE0notErase (heq ▸ hmem)
          have hee := h.owner _ l0 hl0 e (List.mem_of_mem_erase hmem)
          rw [Dict.lookup_erase_ne _ _ _ hne]
          exact hee
        · rw [Dict.lookup_insert_ne _ _ _ _ hkk] at hl
          have hee := h.owner k l hl e hmem
          have hne : e ≠ e0 := by
            intro heq
            rw [heq, hk0] at hee
            exact hkk (Option.some.inj hee).symm
          rw [Dict.lookup_erase_ne _ _ _ hne]
          exact hee
      · intro e hsome
        have hne : e ≠ e0 := by
          intro heq
          rw [heq, Dict.lookup_erase_self] at hsome
          exact Bool.noConfusion hsome
        rw [Dict.lookup_erase_ne _ _ _ hne] at hsome
        rw [Dict.lookup_erase_ne _ _ _ hne]
        exact h.comp_live e hsome
      · intro e hsome
        have hne : e ≠ e0 := by
          intro heq
          rw [heq, Dict.lookup_erase_self] at hsome
          exact Bool.noConfusion hsome
        rw [Dict.lookup_erase_ne _ _ _ hne] at hsome
        rw [Dict.lookup_erase_ne _ _ _ hne]
        exact h.ct_live e hsome
      · intro e hsome
        have hne : e ≠ e0 := by
          intro heq
          rw [heq, Dict.lookup_erase_self] at hsome
          exact Bool.noConfusion hsome
        rw [Dict.lookup_erase_ne _ _ _ hne] at hsome
        exact h.fresh e hsome

/-- Migration preserves the invariant. -/
theorem inv_migrate {w : World} (h : Inv w) {e0 : EntityID} {k0 K' : Key}
    (hk0 : Dict.lookup w.entity_archetype e0 = some k0)
    {s' : Store} (hsk : storeKeys s' = K')
    {ct' : List (EntityID × Ticks)}
    (hct' : ∀ e, (Dict.lookup w.change_ticks e).isSome → (Dict.lookup ct' e).isSome) :
    Inv (migrate w e0 k0 K' s' ct') := by
  obtain ⟨l0, hl0, hc0⟩ := h.mem e0 k0 hk0
  have hA1 : ∀ k l, Dict.lookup (Dict.insert w.archetypes k0 (l0.erase e0)) k = some l →
      ∀ e ∈ l, Dict.lookup w.entity_archetype e = some k ∧ e ≠ e0 := by
    intro k l hl e hmem
    by_cases hkk : k = k0
    · subst hkk
      rw [Dict.lookup_insert_self] at hl
      obtain rfl : l0.erase e0 = l := Option.some.inj hl
      have hne : e ≠ e0 := by
        intro heq
        subst heq
        have hce := List.count_erase_self e l0
        rw [hc0] at hce
        exact absurd (List.count_eq_zero.mp hce) (fun hn => hn hmem)
      exact ⟨h.owner _ l0 hl0 e (List.mem_of_mem_erase hmem), hne⟩
    · rw [Dict.lookup_insert_ne _ _ _ _ hkk] at hl
      have hee := h.owner k l hl e hmem
      have hne : e ≠ e0 := by
        intro heq
        rw [heq, hk0] at hee
        exact hkk (Option.some.inj hee).symm
      exact ⟨hee, hne⟩
  have hA1count : ∀ e k, e ≠ e0 → Dict.lookup w.entity_archetype e = some k →
      ∃ l, Dict.lookup (Dict.insert w.archetypes k0 (l0.erase e0)) k = some l ∧
        l.count e = 1 := by
    intro e k hne hk
    obtain ⟨l, hl, hc⟩ := h.mem e k hk
    by_cases hkk : k = k0
    · subst hkk
      obtain rfl : l0 = l := Option.some.inj (hl0 ▸ hl)
      refine ⟨l0.erase e0, Dict.lookup_insert_self _ _ _, ?_⟩
      rw [List.count_erase_of_ne hne, hc]
    · exact ⟨l, by rw [Dict.lookup_insert_ne _ _ _ _ hkk]; exact hl, hc⟩
  have hmig : migrate w e0 k0 K' s' ct' =
      { w with
        entity_components := Dict.insert w.entity_components e0 s',
        archetypes :=
          (match Dict.lookup (Dict.insert w.archetypes k0 (l0.erase e0)) K' with
           | none => Dict.insert (Dict.insert w.archetypes k0 (l0.erase e0)) K' [e0]
           | some l => Dict.insert (Dict.insert w.archetypes k0 (l0.erase e0)) K' (l ++ [e0])),
        entity_archetype := Dict.insert w.entity_archetype e0 K',
        change_ticks := ct' } := by
    simp only [migrate, hl0]
  rw [hmig]
  cases hA1K : Dict.lookup (Dict.insert w.archetypes k0 (l0.erase e0)) K' with
  | none =>
      refine ⟨?_, ?_, ?_, ?_, ?_, ?_, ?_, ?_⟩
      · exact Dict.keys_nodup_insert _ _ _ h.nd_ea
      · simp only [hA1K]
        exact Dict.keys_nodup_insert _ _ _ (Dict.keys_nodup_insert _ _ _ h.nd_ar)
      · intro e k hk
        by_cases heq : e = e0
        · subst heq
          rw [Dict.lookup_insert_self] at hk
          obtain rfl : K' = k := Option.some.inj hk
          exact ⟨s', Dict.lookup_insert_self _ _ _, hsk⟩
        · rw [Dict.lookup_insert_ne _ _ _ _ heq] at hk
          obtain ⟨s, hs, hsk2⟩ := h.key_eq e k hk
          exact ⟨s, by rw [Dict.lookup_insert_ne _ _ _ _ heq]; exact hs, hsk2⟩
      · intro e k hk
        simp only [hA1K]
        by_cases heq : e = e0
        · subst heq
          rw [Dict.lookup_insert_self] at hk
          obtain rfl : K' = k := Option.some.inj hk
          exact ⟨[e], Dict.lookup_insert_self _ _ _, by simp⟩
        · rw [Dict.lookup_insert_ne _ _ _ _ heq] at hk
          obtain ⟨l, hl, hc⟩ := hA1count e k heq hk
          have hkK : k ≠ K' := by
            intro hkk
            rw [hkk, hA1K] at hl
            exact Option.noConfusion hl
          exact ⟨l, by rw [Dict.lookup_insert_ne _ _ _ _ hkK]; exact hl, hc⟩
      · intro k l hl e hmem
        simp only [hA1K] at hl
        by_cases hkK : k = K'
        · subst hkK
          rw [Dict.lookup_insert_self] at hl
          obtain rfl : [e0] = l := Option.some.inj hl
          obtain rfl : e = e0 := by simpa using hmem
          rw [Dict.lookup_insert_self]
        · rw [Dict.lookup_insert_ne _ _ _ _ hkK] at hl
          obtain ⟨hee, hne⟩ := hA1 k l hl e hmem
          rw [Dict.lookup_insert_ne _ _ _ _ hne]
          exact hee
      · intro e hsome
        by_cases heq : e = e0
        · subst heq
          rw [Dict.lookup_insert_self]
          rfl
        · rw [Dict.lookup_insert_ne _ _ _ _ heq] at hsome
          rw [Dict.lookup_insert_ne _ _ _ _ heq]
          exact h.comp_live e hsome
      · intro e hsome
        by_cases heq : e = e0
        · subst heq
          exact hct' e (h.ct_live e (by rw [hk0]; rfl))
        · rw [Dict.lookup_insert_ne _ _ _ _ heq] at hsome
          exact hct' e (h.ct_live e hsome)
      · intro e hsome
        by_cases heq : e = e0
        · subst heq
          exact h.fresh e (by rw [hk0]; rfl)
        · rw [Dict.lookup_insert_ne _ _ _ _ heq] at hsome
          exact h.fresh e hsome
  | some l1 =>
      have hE0notl1 : e0 ∉ l1 := fun hmem => (hA1 K' l1 hA1K e0 hmem).2 rfl
      refine ⟨?_, ?_, ?_, ?_, ?_, ?_, ?_, ?_⟩
      · exact Dict.keys_nodup_insert _ _ _ h.nd_ea
      · simp only [hA1K]
        exact Dict.keys_nodup_insert _ _ _ (Dict.keys_nodup_insert _ _ _ h.nd_ar)
      · intro e k hk
        by_cases heq : e = e0
        · subst heq
          rw [Dict.lookup_insert_self] at hk
          obtain rfl : K' = k := Option.some.inj hk
          exact ⟨s', Dict.lookup_insert_self _ _ _, hsk⟩
        · rw [Dict.lookup_insert_ne _ _ _ _ heq] at hk
          obtain ⟨s, hs, hsk2⟩ := h.key_eq e k hk
          exact ⟨s, by rw [Dict.lookup_insert_ne _ _ _ _ heq]; exact hs, hsk2⟩
      · intro e k hk
        simp only [hA1K]
        by_cases heq : e = e0
        · subst heq
          rw [Dict.lookup_insert_self] at hk
          obtain rfl : K' = k := Option.some.inj hk
          refine ⟨l1 ++ [e], Dict.lookup_insert_self _ _ _, ?_⟩
          rw [List.count_append, List.count_eq_zero.mpr hE0notl1]
          simp
        · rw [Dict.lookup_insert_ne _ _ _ _ heq] at hk
          obtain ⟨l, hl, hc⟩ := hA1count e k heq hk
          by_cases hkK : k = K'
          · subst hkK
            obtain rfl : l1 = l := Option.some.inj (hA1K ▸ hl)
            refine ⟨l1 ++ [e0], Dict.lookup_insert_self _ _ _, ?_⟩
            rw [List.count_append, hc]
            simp [heq]
          · exact ⟨l, by rw [Dict.lookup_insert_ne _ _ _ _ hkK]; exact hl, hc⟩
      · intro k l hl e hmem
        simp only [hA1K] at hl
        by_cases hkK : k = K'
        · subst hkK
          rw [Dict.lookup_insert_self] at hl
          obtain rfl : l1 ++ [e0] = l := Option.some.inj hl
          rcases List.mem_append.mp hmem with hm | hm
          · obtain ⟨hee, hne⟩ := hA1 k l1 hA1K e hm
            rw [Dict.lookup_insert_ne _ _ _ _ hne]
            exact hee
          · obtain rfl : e = e0 := by simpa using hm
            rw [Dict.lookup_insert_self]
        · rw [Dict.lookup_insert_ne _ _ _ _ hkK] at hl
          obtain ⟨hee, hne⟩ := hA1 k l hl e hmem
          rw [Dict.lookup_insert_ne _ _ _ _ hne]
          exact hee
      · intro e hsome
        by_cases heq : e = e0
        · subst heq
          rw [Dict.lookup_insert_self]
          rfl
        · rw [Dict.lookup_insert_ne _ _ _ _ heq] at hsome
          rw [Dict.lookup_insert_ne _ _ _ _ heq]
          exact h.comp_live e hsome
      · intro e hsome
        by_cases heq : e = e0
        · subst heq
          exact hct' e (h.ct_live e (by rw [hk0]; rfl))
        · rw [Dict.lookup_insert_ne _ _ _ _ heq] at hsome
          exact hct' e (h.ct_live e hsome)
      · intro e hsome
        by_cases heq : e = e0
        · subst heq
          exact h.fresh e (by rw [hk0]; rfl)
        · rw [Dict.lookup_insert_ne _ _ _ _ heq] at hsome
          exact h.fresh e hsome

/-- On a live entity, `add_component` is the migration to `old ∪ {type}`. -/
theorem addComponent_eq {w : World} {e0 : EntityID} {store : Store} {ticks : Ticks} {k0 : Key}
    (hec : Dict.lookup w.entity_components e0 = some store)
    (hct : Dict.lookup w.change_ticks e0 = some ticks)
    (hk0 : Dict.lookup w.entity_archetype e0 = some k0) (c : Comp) :
    w.addComponent e0 c =
      (.ok (), migrate w e0 k0 (insert c.ty k0) (Dict.insert store c.ty c)
        (Dict.insert w.change_ticks e0 (Dict.insert ticks c.ty w.tick))) := by
  simp only [World.addComponent, hec, hct, hk0, migrate]

/-- On a live entity owning the component, `remove_component` is the
migration to `old − {type}`. -/
theorem removeComponent_eq {w : World} {e0 : EntityID} {store : Store} {ticks : Ticks}
    {k0 : Key} {removed : Comp} {t : CompType}
    (hec : Dict.lookup w.entity_components e0 = some store)
    (hst : Dict.lookup store t = some removed)
    (hct : Dict.lookup w.change_ticks e0 = some ticks)
    (hk0 : Dict.lookup w.entity_archetype e0 = some k0) :
    w.removeComponent e0 t =
      (.ok removed, migrate w e0 k0 (k0.erase t) (Dict.erase store t)
        (Dict.insert w.change_ticks e0 (Dict.erase ticks t))) := by
  simp only [World.removeComponent, hec, hst, hct, hk0, migrate]

/-- The operation `add_component` preserves the invariant. -/
theorem inv_add {w : World} (h : Inv w) (e0 : EntityID) (c : Comp) :
    Inv (w.addComponent e0 c).2 := by
  cases hec : Dict.lookup w.entity_components e0 with
  | none =>
      have hw : (w.addComponent e0 c).2 = w := by simp only [World.addComponent, hec]
      rw [hw]
      exact h
  | some store =>
      have hlive : (Dict.lookup w.entity_archetype e0).isSome :=
        h.comp_live e0 (by rw [hec]; rfl)
      obtain ⟨k0, hk0⟩ := Option.isSome_iff_exists.mp hlive
      have hctS : (Dict.lookup w.change_ticks e0).isSome := h.ct_live e0 hlive
      obtain ⟨ticks, hct⟩ := Option.isSome_iff_exists.mp hctS
      obtain ⟨s, hs, hsk⟩ := h.key_eq e0 k0 hk0
      obtain rfl : store = s := Option.some.inj (hec ▸ hs)
      rw [show (w.addComponent e0 c).2
            = migrate w e0 k0 (insert c.ty k0) (Dict.insert store c.ty c)
                (Dict.insert w.change_ticks e0 (Dict.insert ticks c.ty w.tick)) from
          congrArg Prod.snd (addComponent_eq hec hct hk0 c)]
      refine inv_migrate h hk0 (by rw [storeKeys_insert, hsk]) ?_
      intro e he
      by_cases heq : e = e0
      · rw [heq, Dict.lookup_insert_self]
        rfl
      · rw [Dict.lookup_insert_ne _ _ _ _ heq]
        exact he

/-- The operation `remove_component` preserves the invariant. -/
theorem inv_remove {w : World} (h : Inv w) (e0 : EntityID) (t : CompType) :
    Inv (w.removeComponent e0 t).2 := by
  cases hec : Dict.lookup w.entity_components e0 with
  | none =>
      have hw : (w.removeComponent e0 t).2 = w := by simp only [World.removeComponent, hec]
      rw [hw]
      exact h
  | some store =>
      cases hst : Dict.lookup store t with
      | none =>
          have hw : (w.removeComponent e0 t).2 = w := by
            simp only [World.removeComponent, hec, hst]
          rw [hw]
          exact h
      | some removed =>
          have hlive : (Dict.lookup w.entity_archetype e0).isSome :=
            h.comp_live e0 (by rw [hec]; rfl)
          obtain ⟨k0, hk0⟩ := Option.isSome_iff_exists.mp hlive
          have hctS : (Dict.lookup w.change_ticks e0).isSome := h.ct_live e0 hlive
          obtain ⟨ticks, hct⟩ := Option.isSome_iff_exists.mp hctS
          obtain ⟨s, hs, hsk⟩ := h.key_eq e0 k0 hk0
          obtain rfl : store = s := Option.some.inj (hec ▸ hs)
          rw [show (w.removeComponent e0 t).2
                = migrate w e0 k0 (k0.erase t) (Dict.erase store t)
                    (Dict.insert w.change_ticks e0 (Dict.erase ticks t)) from
              congrArg Prod.snd (removeComponent_eq hec hst hct hk0)]
          refine inv_migrate h hk0 (by rw [storeKeys_erase, hsk]) ?_
          intro e he
          by_cases heq : e = e0
          · rw [heq, Dict.lookup_insert_self]
            rfl
          · rw [Dict.lookup_insert_ne _ _ _ _ heq]
            exact he

/-- The operation `set_component` preserves the invariant. -/
theorem inv_set {w : World} (h : Inv w) (e0 : EntityID) (t : CompType) (v : Comp) :
    Inv (w.setComponent e0 t v).2 := by
  cases hec : Dict.lookup w.entity_components e0 with
  | none =>
      have hw : (w.setComponent e0 t v).2 = w := by simp only [World.setComponent, hec]
      rw [hw]
      exact h
  | some store =>
      cases hst : Dict.lookup store t with
      | none =>
          have hw : (w.setComponent e0 t v).2 = w := by
            simp only [World.setComponent, hec, hst]
          rw [hw]
          exact h
      | some old =>
          have hlive : (Dict.lookup w.entity_archetype e0).isSome :=
            h.comp_live e0 (by rw [hec]; rfl)
          obtain ⟨k0, hk0⟩ := Option.isSome_iff_exists.mp hlive
          have hctS : (Dict.lookup w.change_ticks e0).isSome := h.ct_live e0 hlive
          obtain ⟨ticks, hct⟩ := Option.isSome_iff_exists.mp hctS
          obtain ⟨s, hs, hsk⟩ := h.key_eq e0 k0 hk0
          obtain rfl : store = s := Option.some.inj (hec ▸ hs)
          have htk : t ∈ storeKeys store :=
            List.mem_toFinset.mpr ((Dict.lookup_isSome_iff store t).mp (by rw [hst]; rfl))
          have hw : (w.setComponent e0 t v).2 = { w with
              entity_components := Dict.insert w.entity_components e0 (Dict.insert store t v),
              change_ticks := Dict.insert w.change_ticks e0 (Dict.insert ticks t w.tick) } := by
            simp only [World.setComponent, hec, hst, hct]
          rw [hw]
          refine ⟨h.nd_ea, h.nd_ar, ?_, h.mem, h.owner, ?_, ?_, h.fresh⟩
          · intro e k hk
            by_cases heq : e = e0
            · subst heq
              obtain rfl : k0 = k := Option.some.inj (hk0 ▸ hk)
              refine ⟨Dict.insert store t v, Dict.lookup_insert_self _ _ _, ?_⟩
              rw [storeKeys_insert, Finset.insert_eq_self.mpr htk, hsk]
            · obtain ⟨s2, hs2, hsk2⟩ := h.key_eq e k hk
              exact ⟨s2, by rw [Dict.lookup_insert_ne _ _ _ _ heq]; exact hs2, hsk2⟩
          · intro e hsome
            by_cases heq : e = e0
            · rw [heq]
              exact hlive
            · rw [Dict.lookup_insert_ne _ _ _ _ heq] at hsome
              exact h.comp_live e hsome
          · intro e hsome
            by_cases heq : e = e0
            · rw [heq, Dict.lookup_insert_self]
              rfl
            · rw [Dict.lookup_insert_ne _ _ _ _ heq]
              exact h.ct_live e hsome

/-- Every mutation preserves the invariant. -/
theorem inv_apply {w : World} (h : Inv w) (m : Mutation) : Inv (m.apply w) := by
  cases m with
  | spawnM cs => exact inv_spawn h cs
  | despawnM e => exact inv_despawn h e
  | addM e c => exact inv_add h e c
  | setM e t v => exact inv_set h e t v
  | removeM e t => exact inv_remove h e t

end InvPreservation

section Claims

/-- **C1**: after every World mutation (spawn, despawn, add_component,
set_component, remove_component) applied to a world satisfying the world
invariant `Inv` (which holds of a fresh world and, as proved here, is itself
preserved by every mutation, so it holds in every reachable state), every
live entity belongs to exactly one archetype — it is the key of exactly one
`entity_archetype` binding, occurs exactly once in that archetype's member
list and in no other archetype's list — and that archetype's key equals the
set of component types currently stored for the entity
(`World.archConsistent`). -/
theorem archetype_key_invariant_preserved (w : World) (m : Mutation) (h : Inv w) :
    Inv (m.apply w) ∧ (m.apply w).archConsistent = true :=
  ⟨inv_apply h m, (inv_apply h m).toArchConsistent⟩

/-- Witness for C1: the invariant check after spawning one entity with one
component into a fresh world. -/
theorem archetype_key_invariant_witness :
    ((Mutation.spawnM [⟨0, 5⟩]).apply World.empty).archConsistent = true :=
  (archetype_key_invariant_preserved World.empty (.spawnM [⟨0, 5⟩]) inv_empty).2

/-- **C2** (refutation on `ecs.py`): in a world whose only entity (id 0)
spawned at tick 0 with component type 0, and whose tick is now 2, the
entity's last-write tick 0 is recent under neither documented rule
(0 < 2 − 1 and 0 ≠ 2), yet `ecs.py`'s query with `changed = {0}` still
emits the entity — its changed filter is dead code — while `pyecs.py`'s
query (rule (a), last-write ≥ current − 1) emits nothing; the same world at
tick 0 (the spawn tick) does satisfy the filter under rule (a). -/
theorem ecs_changed_filter_ineffective :
    ({ (World.empty.spawn [⟨0, 5⟩]).2 with tick := 2 } : World).queryEcs [0] [] [0] false
      = [0] ∧
    ({ (World.empty.spawn [⟨0, 5⟩]).2 with tick := 2 } : World).query [0] [] [0] = [] ∧
    (World.empty.spawn [⟨0, 5⟩]).2.query [0] [] [0] = [0] := by
  refine ⟨?_, ?_, ?_⟩ <;> rfl

/-- **C4** (refutation on `ecs.py`): `pyecs.py`'s `add_component` on the
unknown entity 0 of a fresh world raises `ValueError` (the InvalidOperation
condition), but `ecs.py`'s raises `KeyError` — the very NotFound condition
that `get_component` and `set_component` raise — so in `ecs.py` the
condition is not distinct. -/
theorem ecs_add_component_error_not_distinct :
    (World.empty.addComponentEcs 0 ⟨0, 5⟩).1 = .error .keyError ∧
    World.empty.getComponent 0 0 = .error .keyError ∧
    (World.empty.setComponent 0 0 ⟨0, 5⟩).1 = .error .keyError ∧
    (World.empty.addComponent 0 ⟨0, 5⟩).1 = .error .valueError :=
  ⟨rfl, rfl, rfl, rfl⟩

/-- **C9** (refutation on `ecs.py`): with two live entities 0 and 1 both
holding component type 0 (spawned at tick 0), `ecs.py`'s
`remove_component(0, 0)` erases entity 1's change-tick record for type 0 as
well (its change-tick loop shadows the entity parameter and pops the type
from every entity), while `pyecs.py`'s `remove_component` leaves entity 1's
record `[(0, 0)]` intact. -/
theorem ecs_remove_component_clears_other_ticks :
    Dict.lookup ((((World.empty.spawn [⟨0, 5⟩]).2.spawn [⟨0, 7⟩]).2.removeComponentEcs
        0 0).2.change_ticks) 1 = some [] ∧
    Dict.lookup ((((World.empty.spawn [⟨0, 5⟩]).2.spawn [⟨0, 7⟩]).2.removeComponent
        0 0).2.change_ticks) 1 = some [(0, 0)] :=
  ⟨rfl, rfl⟩

/-- **C10**: `spawn` called with components of duplicated types succeeds
(keep-last): the returned id is the allocator's next id; the new entity's
store maps each duplicated type to the last-passed value of that type
(the last element of the filter); the store's key list and the change-tick
table's key list hold each type exactly once (they are duplicate-free, so
the change-tick table has exactly one entry for the type); and the
archetype key, a `Finset`, contains the type (exactly once by
construction). -/
theorem spawn_duplicate_types_keep_last (w : World) (cs : List Comp) (t : CompType)
    (h : t ∈ cs.map Comp.ty) :
    (w.spawn cs).1 = w.next_id ∧
    Dict.lookup ((Dict.lookup (w.spawn cs).2.entity_components (w.spawn cs).1).getD []) t
      = (cs.filter (fun c => decide (c.ty = t))).getLast? ∧
    (Dict.keys ((Dict.lookup (w.spawn cs).2.entity_components (w.spawn cs).1).getD [])).Nodup ∧
    Dict.lookup ((Dict.lookup (w.spawn cs).2.change_ticks (w.spawn cs).1).getD []) t
      = some w.tick ∧
    (Dict.keys ((Dict.lookup (w.spawn cs).2.change_ticks (w.spawn cs).1).getD [])).Nodup ∧
    t ∈ (Dict.lookup (w.spawn cs).2.entity_archetype (w.spawn cs).1).getD ∅ := by
  have hec : (w.spawn cs).2.entity_components
      = Dict.insert w.entity_components w.next_id
          (cs.foldl (fun d c => Dict.insert d c.ty c) []) := rfl
  have hct : (w.spawn cs).2.change_ticks
      = Dict.insert w.change_ticks w.next_id
          (cs.foldl (fun d c => Dict.insert d c.ty w.tick) []) := rfl
  have hea : (w.spawn cs).2.entity_archetype
      = Dict.insert w.entity_archetype w.next_id
          (cs.foldl (fun s c => insert c.ty s) ∅) := rfl
  have he1 : (w.spawn cs).1 = w.next_id := rfl
  obtain ⟨c0, hc0mem, hc0ty⟩ := List.mem_map.mp h
  have hfilter : c0 ∈ cs.filter (fun c => decide (c.ty = t)) :=
    List.mem_filter.mpr ⟨hc0mem, by simp [hc0ty]⟩
  have hfne : cs.filter (fun c => decide (c.ty = t)) ≠ [] := List.ne_nil_of_mem hfilter
  obtain ⟨clast, hclast⟩ :=
    Option.isSome_iff_exists.mp (List.getLast?_isSome.mpr hfne)
  refine ⟨rfl, ?_, ?_, ?_, ?_, ?_⟩
  · rw [he1, hec, Dict.lookup_getD_insert_self,
      Dict.lookup_foldl_insert (fun c => c) cs [] t, hclast]
    rfl
  · rw [he1, hec, Dict.lookup_getD_insert_self]
    exact Dict.keys_nodup_foldl (fun c => c) cs [] (by simp [Dict.keys])
  · rw [he1, hct, Dict.lookup_getD_insert_self,
      Dict.lookup_foldl_insert (fun _ => w.tick) cs [] t, hclast]
    rfl
  · rw [he1, hct, Dict.lookup_getD_insert_self]
    exact Dict.keys_nodup_foldl (fun _ => w.tick) cs [] (by simp [Dict.keys])
  · rw [he1, hea, Dict.lookup_getD_insert_self, mem_foldl_key]
    exact Or.inr h

/-- Witness for C10: spawning `[⟨0,1⟩, ⟨0,2⟩]` into a fresh world keeps the
last value `⟨0,2⟩` for the duplicated type 0. -/
theorem spawn_duplicate_types_witness :
    (World.empty.spawn [⟨0, 1⟩, ⟨0, 2⟩]).1 = World.empty.next_id ∧
    Dict.lookup ((Dict.lookup (World.empty.spawn [⟨0, 1⟩, ⟨0, 2⟩]).2.entity_components
        (World.empty.spawn [⟨0, 1⟩, ⟨0, 2⟩]).1).getD []) 0
      = (([⟨0, 1⟩, ⟨0, 2⟩] : List Comp).filter (fun c => decide (c.ty = 0))).getLast? ∧
    (Dict.keys ((Dict.lookup (World.empty.spawn [⟨0, 1⟩, ⟨0, 2⟩]).2.entity_components
        (World.empty.spawn [⟨0, 1⟩, ⟨0, 2⟩]).1).getD [])).Nodup ∧
    Dict.lookup ((Dict.lookup (World.empty.spawn [⟨0, 1⟩, ⟨0, 2⟩]).2.change_ticks
        (World.empty.spawn [⟨0, 1⟩, ⟨0, 2⟩]).1).getD []) 0
      = some World.empty.tick ∧
    (Dict.keys ((Dict.lookup (World.empty.spawn [⟨0, 1⟩, ⟨0, 2⟩]).2.change_ticks
        (World.empty.spawn [⟨0, 1⟩, ⟨0, 2⟩]).1).getD [])).Nodup ∧
    0 ∈ (Dict.lookup (World.empty.spawn [⟨0, 1⟩, ⟨0, 2⟩]).2.entity_archetype
        (World.empty.spawn [⟨0, 1⟩, ⟨0, 2⟩]).1).getD ∅ :=
  spawn_duplicate_types_keep_last World.empty [⟨0, 1⟩, ⟨0, 2⟩] 0 (by decide)

end Claims

section ClaimsAllocator

/-- No mutation ever decreases the id allocator. -/
theorem apply_next_id_mono (m : Mutation) (w : World) : w.next_id ≤ (m.apply w).next_id := by
  cases m with
  | spawnM cs => exact Nat.le_succ _
  | despawnM e =>
      show w.next_id ≤ (w.despawn e).next_id
      unfold World.despawn
      repeat' split
      all_goals exact Nat.le_refl _
  | addM e c =>
      show w.next_id ≤ (w.addComponent e c).2.next_id
      unfold World.addComponent
      repeat' split
      all_goals exact Nat.le_refl _
  | setM e t v =>
      show w.next_id ≤ (w.setComponent e t v).2.next_id
      unfold World.setComponent
      repeat' split
      all_goals exact Nat.le_refl _
  | removeM e t =>
      show w.next_id ≤ (w.removeComponent e t).2.next_id
      unfold World.removeComponent
      repeat' split
      all_goals exact Nat.le_refl _

/-- Ids collected by `runOps` are at least the starting `next_id`, and
`next_id` never decreases along the run. -/
theorem runOps_ids_ge (ops : List Mutation) (w : World) :
    (∀ i ∈ (w.runOps ops).2, w.next_id ≤ i) ∧ w.next_id ≤ (w.runOps ops).1.next_id := by
  induction ops generalizing w with
  | nil => exact ⟨by intro i hi; simp [World.runOps] at hi, Nat.le_refl _⟩
  | cons m rest ih =>
      cases m with
      | spawnM cs =>
          have hspl : w.runOps (.spawnM cs :: rest)
              = ((((w.spawn cs).2).runOps rest).1,
                 (w.spawn cs).1 :: (((w.spawn cs).2).runOps rest).2) := rfl
          rw [hspl]
          have hnext : (w.spawn cs).2.next_id = w.next_id + 1 := rfl
          obtain ⟨ih1, ih2⟩ := ih ((w.spawn cs).2)
          rw [hnext] at ih2
          constructor
          · intro i hi
            rcases List.mem_cons.mp hi with h1 | h1
            · exact Nat.le_of_eq h1.symm
            · have hgt := ih1 i h1
              rw [hnext] at hgt
              exact Nat.le_trans (Nat.le_succ _) hgt
          · exact Nat.le_trans (Nat.le_succ _) ih2
      | despawnM e =>
          obtain ⟨ih1, ih2⟩ := ih ((Mutation.despawnM e).apply w)
          have hm := apply_next_id_mono (.despawnM e) w
          exact ⟨fun i hi => Nat.le_trans hm (ih1 i hi), Nat.le_trans hm ih2⟩
      | addM e c =>
          obtain ⟨ih1, ih2⟩ := ih ((Mutation.addM e c).apply w)
          have hm := apply_next_id_mono (.addM e c) w
          exact ⟨fun i hi => Nat.le_trans hm (ih1 i hi), Nat.le_trans hm ih2⟩
      | setM e t v =>
          obtain ⟨ih1, ih2⟩ := ih ((Mutation.setM e t v).apply w)
          have hm := apply_next_id_mono (.setM e t v) w
          exact ⟨fun i hi => Nat.le_trans hm (ih1 i hi), Nat.le_trans hm ih2⟩
      | removeM e t =>
          obtain ⟨ih1, ih2⟩ := ih ((Mutation.removeM e t).apply w)
          have hm := apply_next_id_mono (.removeM e t) w
          exact ⟨fun i hi => Nat.le_trans hm (ih1 i hi), Nat.le_trans hm ih2⟩

/-- **C8**: across any sequence of World operations (spawns, despawns,
component mutations), the ids returned by the successive `spawn` calls form
a strictly increasing list — so ids are strictly increasing and an id once
returned is never returned by a later spawn, even after the entity was
despawned. -/
theorem spawn_ids_strictly_increasing (ops : List Mutation) (w : World) :
    ((w.runOps ops).2).Pairwise (· < ·) := by
  induction ops generalizing w with
  | nil => simp [World.runOps]
  | cons m rest ih =>
      cases m with
      | spawnM cs =>
          have hspl : (w.runOps (.spawnM cs :: rest)).2
              = (w.spawn cs).1 :: (((w.spawn cs).2).runOps rest).2 := rfl
          rw [hspl]
          refine List.Pairwise.cons ?_ (ih _)
          intro i hi
          have hge := (runOps_ids_ge rest ((w.spawn cs).2)).1 i hi
          have hnext : (w.spawn cs).2.next_id = w.next_id + 1 := rfl
          rw [hnext] at hge
          have he : (w.spawn cs).1 = w.next_id := rfl
          rw [he]
          exact Nat.lt_of_lt_of_le (Nat.lt_succ_self _) hge
      | despawnM e => exact ih ((Mutation.despawnM e).apply w)
      | addM e c => exact ih ((Mutation.addM e c).apply w)
      | setM e t v => exact ih ((Mutation.setM e t v).apply w)
      | removeM e t => exact ih ((Mutation.removeM e t).apply w)

end ClaimsAllocator

section ClaimsEvents

/-- An event found in the writable generation after a batch of writes was
either one of those writes or was queued before. -/
theorem mem_writeMany_next (es : List Ev) (b : EventBuffer) (x : Ev) (t : Nat)
    (hx : x ∈ (Dict.lookup (b.writeMany es).next t).getD []) :
    x ∈ es ∨ x ∈ (Dict.lookup b.next t).getD [] := by
  induction es generalizing b with
  | nil => exact Or.inr hx
  | cons e rest ih =>
      rcases ih (b.write e) hx with h1 | h1
      · exact Or.inl (List.mem_cons_of_mem _ h1)
      · have hw : (b.write e).next
            = Dict.insert b.next e.ty ((Dict.lookup b.next e.ty).getD [] ++ [e]) := rfl
        rw [hw] at h1
        by_cases ht : t = e.ty
        · subst ht
          rw [Dict.lookup_getD_insert_self] at h1
          rcases List.mem_append.mp h1 with h2 | h2
          · exact Or.inr h2
          · obtain rfl : x = e := by simpa using h2
            exact Or.inl (List.mem_cons_self _ _)
        · rw [Dict.lookup_insert_ne _ _ _ _ ht] at h1
          exact Or.inr h1

/-- **C3**: an event `x` written during a tick (and not equal to any event
already readable or written later) is not readable before `update`; `write`
leaves the readable generation untouched (it is the identity on `current`,
so only `update` moves events from `next` to `current`); after exactly one
`update` the event is readable; and after a second `update` — with any
events `es` not containing `x` written in between — it is gone. -/
theorem event_buffer_one_tick_visibility (b : EventBuffer) (x : Ev) (es : List Ev)
    (h1 : x ∉ b.read x.ty) (h2 : x ∉ es) :
    (b.write x).current = b.current ∧
    x ∉ (b.write x).read x.ty ∧
    x ∈ ((b.write x).update).read x.ty ∧
    x ∉ ((((b.write x).update).writeMany es).update).read x.ty := by
  refine ⟨rfl, h1, ?_, ?_⟩
  · show x ∈ (Dict.lookup (b.write x).next x.ty).getD []
    have hw : (b.write x).next
        = Dict.insert b.next x.ty ((Dict.lookup b.next x.ty).getD [] ++ [x]) := rfl
    rw [hw, Dict.lookup_getD_insert_self]
    exact List.mem_append.mpr (Or.inr (List.mem_cons_self _ _))
  · intro hmem
    have hread : x ∈ (Dict.lookup ((((b.write x).update).writeMany es)).next x.ty).getD [] :=
      hmem
    rcases mem_writeMany_next es ((b.write x).update) x x.ty hread with h3 | h3
    · exact h2 h3
    · simp [EventBuffer.update, Dict.lookup] at h3

/-- Witness for C3: one event of type 0 through a fresh buffer, with one
other event written between the two updates. -/
theorem event_buffer_one_tick_visibility_witness :
    (EventBuffer.empty.write ⟨0, 1⟩).current = EventBuffer.empty.current ∧
    (⟨0, 1⟩ : Ev) ∉ (EventBuffer.empty.write ⟨0, 1⟩).read 0 ∧
    (⟨0, 1⟩ : Ev) ∈ ((EventBuffer.empty.write ⟨0, 1⟩).update).read 0 ∧
    (⟨0, 1⟩ : Ev) ∉
      ((((EventBuffer.empty.write ⟨0, 1⟩).update).writeMany [⟨0, 2⟩]).update).read 0 :=
  event_buffer_one_tick_visibility EventBuffer.empty ⟨0, 1⟩ [⟨0, 2⟩] (by decide) (by decide)

/-- Instrumented systems leave the world unchanged and queue their log
events in order. -/
theorem foldl_logSys (l : List Nat) (w : World) (ev : EventBuffer) :
    (l.map logSys).foldl (fun p sys => sys p.1 p.2) (w, ev)
      = (w, ev.writeMany (l.map (fun i => ⟨0, Nat.pair i w.tick⟩))) := by
  induction l generalizing ev with
  | nil => rfl
  | cons i rest ih =>
      simp only [List.map_cons, List.foldl_cons]
      exact ih (ev.write ⟨0, Nat.pair i w.tick⟩)

/-- Writes of type-0 events append, in order, to the type-0 queue of the
writable generation. -/
theorem writeMany_zero_next (es : List Ev) (b : EventBuffer) (h : ∀ e ∈ es, e.ty = 0) :
    (Dict.lookup (b.writeMany es).next 0).getD [] = (Dict.lookup b.next 0).getD [] ++ es := by
  induction es generalizing b with
  | nil => simp [EventBuffer.writeMany]
  | cons e rest ih =>
      have he : e.ty = 0 := h e (List.mem_cons_self _ _)
      have hrest : ∀ e' ∈ rest, e'.ty = 0 := fun e' h' => h e' (List.mem_cons_of_mem _ h')
      show (Dict.lookup ((b.write e).writeMany rest).next 0).getD [] = _
      rw [ih (b.write e) hrest]
      have hw : (b.write e).next
          = Dict.insert b.next e.ty ((Dict.lookup b.next e.ty).getD [] ++ [e]) := rfl
      rw [hw, he, Dict.lookup_getD_insert_self]
      simp

/-- Running `n` instrumented `pyecs.py` systems over a fresh world at tick
`t`: the allocator reaches `n`, the tick stays `t + 1`, and the component
store records, in spawn order, one entity per system carrying its index and
the tick it observed. -/
theorem foldl_logSysP (n t : Nat) :
    (((List.range n).map logSysP).foldl (fun (w : World) (sys : SystemP) => sys w)
        { World.empty with tick := t + 1 }).next_id = n ∧
    (((List.range n).map logSysP).foldl (fun (w : World) (sys : SystemP) => sys w)
        { World.empty with tick := t + 1 }).tick = t + 1 ∧
    (((List.range n).map logSysP).foldl (fun (w : World) (sys : SystemP) => sys w)
        { World.empty with tick := t + 1 }).entity_components
      = (List.range n).map (fun i => (i, [(i, ⟨i, t + 1⟩)])) := by
  induction n with
  | zero => exact ⟨rfl, rfl, rfl⟩
  | succ n ih =>
      obtain ⟨ih1, ih2, ih3⟩ := ih
      rw [List.range_succ, List.map_append, List.foldl_append]
      simp only [List.map_cons, List.map_nil, List.foldl_cons, List.foldl_nil]
      have hlookm : Dict.lookup ((List.range n).map
          (fun i => ((i : Nat), [((i : Nat), (⟨i, t + 1⟩ : Comp))]))) n = none := by
        rw [Dict.lookup_eq_none_iff, Dict.keys, List.map_map]
        intro hmem
        obtain ⟨i, hi, hieq⟩ := List.mem_map.mp hmem
        have hin : i = n := hieq
        subst hin
        exact absurd (List.mem_range.mp hi) (Nat.lt_irrefl i)
      refine ⟨?_, ?_, ?_⟩
      · show (((List.range n).map logSysP).foldl (fun (w : World) (sys : SystemP) => sys w)
            { World.empty with tick := t + 1 }).next_id + 1 = n + 1
        rw [ih1]
      · show (((List.range n).map logSysP).foldl (fun (w : World) (sys : SystemP) => sys w)
            { World.empty with tick := t + 1 }).tick = t + 1
        exact ih2
      · have h0 : (logSysP n (((List.range n).map logSysP).foldl
              (fun (w : World) (sys : SystemP) => sys w)
              { World.empty with tick := t + 1 })).entity_components
            = Dict.insert
                (((List.range n).map logSysP).foldl
                  (fun (w : World) (sys : SystemP) => sys w)
                  { World.empty with tick := t + 1 }).entity_components
                (((List.range n).map logSysP).foldl
                  (fun (w : World) (sys : SystemP) => sys w)
                  { World.empty with tick := t + 1 }).next_id
                [(n, ⟨n, (((List.range n).map logSysP).foldl
                  (fun (w : World) (sys : SystemP) => sys w)
                  { World.empty with tick := t + 1 }).tick⟩)] := rfl
        rw [h0, ih1, ih2, ih3, Dict.insert_eq_append _ _ _ hlookm, List.map_append]
        rfl

/-- **C7** (amended): for `ecs.py`'s `Schedule` — the variant that owns the
event buffer — running `n` instrumented systems (each records its
registration index and the tick it observes) over a world at tick `t`
shows: the tick is incremented exactly once, to `t + 1`, before any system
runs (every system observed `t + 1`); every registered system runs exactly
once, in registration order (the log is `0, 1, …, n−1` in order); and the
event buffer is swapped exactly once after all systems ran (all their
writes are in the readable generation afterwards and the writable
generation is empty).  For `pyecs.py`'s `Schedule`, whose `run` holds no
event buffer, the same tick increment and in-order single invocation hold
(instrumented systems spawn a log entity each), and with no systems
registered `run`'s complete effect is the tick increment — it swaps
nothing. -/
theorem schedule_run_order_tick_swap (n t : Nat) :
    ((Schedule.run ⟨(List.range n).map logSys, EventBuffer.empty⟩
        { World.empty with tick := t }).1.tick = t + 1 ∧
    (Schedule.run ⟨(List.range n).map logSys, EventBuffer.empty⟩
        { World.empty with tick := t }).2.events.read 0
      = (List.range n).map (fun i => ⟨0, Nat.pair i (t + 1)⟩) ∧
    (Schedule.run ⟨(List.range n).map logSys, EventBuffer.empty⟩
        { World.empty with tick := t }).2.events.next = []) ∧
    ((ScheduleP.run ⟨(List.range n).map logSysP⟩ { World.empty with tick := t }).tick
      = t + 1 ∧
    (ScheduleP.run ⟨(List.range n).map logSysP⟩
        { World.empty with tick := t }).entity_components
      = (List.range n).map (fun i => (i, [(i, ⟨i, t + 1⟩)])) ∧
    ScheduleP.run ⟨[]⟩ { World.empty with tick := t }
      = { World.empty with tick := t + 1 }) := by
  refine ⟨⟨?_, ?_, ?_⟩, ⟨?_, ?_, rfl⟩⟩
  · show (((List.range n).map logSys).foldl
        (fun (p : World × EventBuffer) (sys : SystemT) => sys p.1 p.2)
        ({ World.empty with tick := t + 1 }, EventBuffer.empty)).1.tick = t + 1
    rw [foldl_logSys]
  · show ((((List.range n).map logSys).foldl
        (fun (p : World × EventBuffer) (sys : SystemT) => sys p.1 p.2)
        ({ World.empty with tick := t + 1 }, EventBuffer.empty)).2.update).read 0
      = (List.range n).map (fun i => ⟨0, Nat.pair i (t + 1)⟩)
    rw [foldl_logSys]
    show (Dict.lookup (EventBuffer.empty.writeMany
        ((List.range n).map (fun i =>
          ⟨0, Nat.pair i ({ World.empty with tick := t + 1 } : World).tick⟩))).next 0).getD []
      = (List.range n).map (fun i => ⟨0, Nat.pair i (t + 1)⟩)
    rw [writeMany_zero_next]
    · simp [EventBuffer.empty, Dict.lookup]
    · intro e he
      obtain ⟨i, hi, rfl⟩ := List.mem_map.mp he
      rfl
  · rfl
  · exact (foldl_logSysP n t).2.1
  · exact (foldl_logSysP n t).2.2

/-- Counterexample for **C7** as frozen: `pyecs.py`'s `Schedule.run` — one
of the claim's cited sources — holds no event buffer and never calls
`update`.  With no systems registered, its complete effect is the tick
increment: the resulting world equals the input world with only `tick`
bumped (first conjunct), so no buffer anywhere was swapped; a swap would
have been observable (second and third conjuncts: an event pending in a
buffer's writable generation is unreadable before `update` and readable
after it).  In `pyecs.py`, hosts call `update` on the `EventBuffer`
resource themselves (`test_qt.py`, `test_pygame.py`), so "swaps the event
buffer exactly once after all systems" is false for that variant. -/
theorem pyecs_run_swaps_no_buffer :
    ScheduleP.run ⟨[]⟩ World.empty = { World.empty with tick := 1 } ∧
    (EventBuffer.empty.write ⟨0, 1⟩).read 0 = [] ∧
    ((EventBuffer.empty.write ⟨0, 1⟩).update).read 0 = [⟨0, 1⟩] :=
  ⟨rfl, rfl, rfl⟩

end ClaimsEvents

section ClaimsComponents

/-- **C6**: on an unknown entity, and on a known entity lacking the
component type, `set_component` fails unconditionally with the NotFound
condition (`KeyError`) and the whole world — in particular the entity's
archetype — is unchanged; for an entity that has the component type and a
change-tick record (every live entity of a reachable world has one, by the
invariant's `ct_live`), it replaces the stored value, stamps the entity's
change tick for that type with the current tick, returns the previous
value, and leaves the entity-archetype map and the archetype table
untouched. -/
theorem set_component_spec (w : World) (e : EntityID) (t : CompType) (v : Comp) :
    match Dict.lookup w.entity_components e with
    | none => w.setComponent e t v = (.error .keyError, w)
    | some s =>
        match Dict.lookup s t with
        | none => w.setComponent e t v = (.error .keyError, w)
        | some old =>
            (Dict.lookup w.change_ticks e).isSome →
            ((w.setComponent e t v).1 = .ok old ∧
             Dict.lookup (w.setComponent e t v).2.entity_components e
               = some (Dict.insert s t v) ∧
             Dict.lookup ((Dict.lookup (w.setComponent e t v).2.change_ticks e).getD []) t
               = some w.tick ∧
             (w.setComponent e t v).2.entity_archetype = w.entity_archetype ∧
             (w.setComponent e t v).2.archetypes = w.archetypes) := by
  split
  next hec => simp only [World.setComponent, hec]
  next s hec =>
    split
    next hst => simp only [World.setComponent, hec, hst]
    next old hst =>
      intro hct
      obtain ⟨ticks, hctt⟩ := Option.isSome_iff_exists.mp hct
      have hw : w.setComponent e t v = (.ok old, { w with
          entity_components := Dict.insert w.entity_components e (Dict.insert s t v),
          change_ticks :=
            Dict.insert w.change_ticks e (Dict.insert ticks t w.tick) }) := by
        simp only [World.setComponent, hec, hst, hctt]
      rw [hw]
      refine ⟨rfl, Dict.lookup_insert_self _ _ _, ?_, rfl, rfl⟩
      show Dict.lookup ((Dict.lookup
          (Dict.insert w.change_ticks e (Dict.insert ticks t w.tick)) e).getD []) t
        = some w.tick
      rw [Dict.lookup_getD_insert_self]
      exact Dict.lookup_insert_self _ _ _

/-- Witness for C6: `set_component` on the unknown entity of a fresh world
fails with `KeyError` leaving the world unchanged, and overwriting the
single component of a one-entity world succeeds as specified. -/
theorem set_component_spec_witness :
    World.empty.setComponent 0 0 ⟨0, 9⟩ = (.error .keyError, World.empty) ∧
    ((World.empty.spawn [⟨0, 5⟩]).2.setComponent 0 0 ⟨0, 9⟩).1 = .ok ⟨0, 5⟩ ∧
    Dict.lookup ((World.empty.spawn [⟨0, 5⟩]).2.setComponent 0 0 ⟨0, 9⟩).2.entity_components 0
      = some (Dict.insert [(0, ⟨0, 5⟩)] 0 ⟨0, 9⟩) ∧
    Dict.lookup ((Dict.lookup
        ((World.empty.spawn [⟨0, 5⟩]).2.setComponent 0 0 ⟨0, 9⟩).2.change_ticks 0).getD []) 0
      = some (World.empty.spawn [⟨0, 5⟩]).2.tick ∧
    ((World.empty.spawn [⟨0, 5⟩]).2.setComponent 0 0 ⟨0, 9⟩).2.entity_archetype
      = (World.empty.spawn [⟨0, 5⟩]).2.entity_archetype ∧
    ((World.empty.spawn [⟨0, 5⟩]).2.setComponent 0 0 ⟨0, 9⟩).2.archetypes
      = (World.empty.spawn [⟨0, 5⟩]).2.archetypes :=
  ⟨set_component_spec World.empty 0 0 ⟨0, 9⟩,
   set_component_spec (World.empty.spawn [⟨0, 5⟩]).2 0 0 ⟨0, 9⟩ (by decide)⟩

/-- **C5**: for a live entity `e` that lacks component type `t` (its store
has no entry for `t` and its archetype key does not contain `t`),
`add_component(e, ⟨t, v⟩)` succeeds and the following
`remove_component(e, t)` succeeds, returns the added component, and
restores both `e`'s original archetype key and `e`'s original component
store.  (The hypotheses hold for every live entity of a reachable world
that lacks the type, by the archetype invariant.) -/
theorem add_remove_round_trip (w : World) (e : EntityID) (t : CompType) (v : Nat)
    (s : Store) (k : Key) (ticks : Ticks)
    (hs : Dict.lookup w.entity_components e = some s)
    (hst : Dict.lookup s t = none)
    (hk : Dict.lookup w.entity_archetype e = some k)
    (hkt : t ∉ k)
    (hct : Dict.lookup w.change_ticks e = some ticks) :
    (w.addComponent e ⟨t, v⟩).1 = .ok () ∧
    ((w.addComponent e ⟨t, v⟩).2.removeComponent e t).1 = .ok ⟨t, v⟩ ∧
    Dict.lookup ((w.addComponent e ⟨t, v⟩).2.removeComponent e t).2.entity_archetype e
      = some k ∧
    Dict.lookup ((w.addComponent e ⟨t, v⟩).2.removeComponent e t).2.entity_components e
      = some s := by
  have hadd := addComponent_eq hs hct hk (⟨t, v⟩ : Comp)
  have h1 : (w.addComponent e ⟨t, v⟩).1 = .ok () := by rw [hadd]
  have hw2 : (w.addComponent e ⟨t, v⟩).2
      = migrate w e k (insert t k) (Dict.insert s t ⟨t, v⟩)
          (Dict.insert w.change_ticks e (Dict.insert ticks t w.tick)) := by rw [hadd]
  have hec1 : Dict.lookup ((w.addComponent e ⟨t, v⟩).2).entity_components e
      = some (Dict.insert s t ⟨t, v⟩) := by
    rw [hw2]
    exact Dict.lookup_insert_self _ _ _
  have hst1 : Dict.lookup (Dict.insert s t (⟨t, v⟩ : Comp)) t = some ⟨t, v⟩ :=
    Dict.lookup_insert_self _ _ _
  have hea1 : Dict.lookup ((w.addComponent e ⟨t, v⟩).2).entity_archetype e
      = some (insert t k) := by
    rw [hw2]
    exact Dict.lookup_insert_self _ _ _
  have hct1 : Dict.lookup ((w.addComponent e ⟨t, v⟩).2).change_ticks e
      = some (Dict.insert ticks t w.tick) := by
    rw [hw2]
    exact Dict.lookup_insert_self _ _ _
  have hrem := removeComponent_eq hec1 hst1 hct1 hea1
  have hkey : (insert t k).erase t = k := Finset.erase_insert hkt
  have hsr : Dict.erase (Dict.insert s t (⟨t, v⟩ : Comp)) t = s :=
    Dict.erase_insert_of_lookup_none s t _ hst
  rw [hkey, hsr] at hrem
  refine ⟨h1, ?_, ?_, ?_⟩
  · rw [hrem]
  · rw [hrem]
    exact Dict.lookup_insert_self _ _ _
  · rw [hrem]
    exact Dict.lookup_insert_self _ _ _

/-- Witness for C5: adding component type 1 to the one-entity world whose
entity has only type 0, then removing it. -/
theorem add_remove_round_trip_witness :
    ((World.empty.spawn [⟨0, 5⟩]).2.addComponent 0 ⟨1, 9⟩).1 = .ok () ∧
    (((World.empty.spawn [⟨0, 5⟩]).2.addComponent 0 ⟨1, 9⟩).2.removeComponent 0 1).1
      = .ok ⟨1, 9⟩ ∧
    Dict.lookup (((World.empty.spawn [⟨0, 5⟩]).2.addComponent 0
        ⟨1, 9⟩).2.removeComponent 0 1).2.entity_archetype 0 = some {0} ∧
    Dict.lookup (((World.empty.spawn [⟨0, 5⟩]).2.addComponent 0
        ⟨1, 9⟩).2.removeComponent 0 1).2.entity_components 0 = some [(0, ⟨0, 5⟩)] :=
  add_remove_round_trip (World.empty.spawn [⟨0, 5⟩]).2 0 1 9 [(0, ⟨0, 5⟩)] {0} [(0, 0)]
    (by decide) (by decide) (by decide) (by decide) (by decide)

end ClaimsComponents

end Pyecs
